import Mathlib

/-!
# autoignore: a verification development

A shallow embedding of the template generator (`src/main.cpp`, class `AutoIgnore`) and of
the template mixer (`src/template_mix.cpp`, class `TemplateMixer`), followed by theorems
about template resolution, generation, pattern extraction, conflict analysis, ordering and
description extraction.

Conventions of the embedding:

* a `std::string` is a list of characters (`Str`), one `Char` per `char`;
* `size_t` values are natural numbers, the arithmetic that can wrap is taken modulo `2^64`
  (`SIZE_MOD`), and `npos` is `2^64 - 1`;
* a call that throws (`std::string::erase` with a position past the end, the read of an
  opened stream that cannot be read) yields `none`; an exception nothing catches ends the
  process, which `Effects.terminated` records;
* `while (std::getline(stream, line))` over a string stream visits `getlines content`;
* the file system is a parameter: an ordered list of search roots (`Root`), each with the
  names its directory iterator yields, the object (`Node`) found under each name, and the
  object each relative path below the root designates; the queries `fs::exists`,
  `fs::is_directory`, `is_regular_file` and `file_size` and the directory iteration are
  taken to return their answer;
* console output is collected in the two streams `cout` and `cerr`, `std::endl` being `"\n"`.
-/

namespace Autoignore

/-! ## Strings -/

/-- A `std::string`: the sequence of its characters. -/
abbrev Str := List Char

/-- A string literal of the program as a `Str`. -/
def str (s : String) : Str := s.toList

/-- The number of values of `size_t` (64 bits). -/
def SIZE_MOD : Nat := 18446744073709551616

/-- The constant `std::string::npos`, the largest `size_t`. -/
def npos : Nat := SIZE_MOD - 1

/-- The lines `std::getline` reads from a string stream over the given content, one call after
the other until a call fails: a line ends at `'\n'` (not stored) or at the end of the content,
and a call that meets the end of the content before any character fails. -/
def getlines : Str → List Str
  | [] => []
  | c :: cs =>
    if c = '\n' then [] :: getlines cs
    else
      match getlines cs with
      | [] => [[c]]
      | l :: ls => (c :: l) :: ls

/-- One call of `std::getline(stream, line)`: `none` when the call fails (nothing left to read),
otherwise the line read and what is left of the stream. -/
def getline : Str → Option (Str × Str)
  | [] => none
  | c :: cs =>
    if c = '\n' then some ([], cs)
    else
      match getline cs with
      | none => some ([c], [])
      | some (l, rest) => some (c :: l, rest)

/-- The test `s.ends_with(c)` for a character. -/
def ends_with_char (s : Str) (c : Char) : Bool :=
  s.getLast? == some c

/-- The test `s.ends_with(suffix)` for a string. -/
def ends_with (s suffix : Str) : Bool :=
  suffix.isSuffixOf s

/-- The call `s.substr(pos, n)`. Every call in the program has `pos ≤ s.size()` (the position
is `0`, or `1` on a string just tested non-empty), so the call never throws. -/
def substr (s : Str) (pos n : Nat) : Str :=
  (s.drop pos).take n

/-- The call `s.erase(pos, n)`: `none` stands for the `std::out_of_range` thrown when
`pos > s.size()`; otherwise `min(n, size - pos)` characters are removed from `pos` on. -/
def erase (s : Str) (pos n : Nat) : Option Str :=
  if pos > s.length then none
  else some (s.take pos ++ s.drop (pos + min n (s.length - pos)))

/-- Index of the first character satisfying `p`, counted from `i`; `npos` when there is none. -/
def find_first_from (p : Char → Bool) : Nat → Str → Nat
  | _, [] => npos
  | i, c :: cs => if p c then i else find_first_from p (i + 1) cs

/-- Index of the last character satisfying `p`, counted from `i`; `npos` when there is none. -/
def find_last_from (p : Char → Bool) : Nat → Str → Nat
  | _, [] => npos
  | i, c :: cs =>
    let r := find_last_from p (i + 1) cs
    if r = npos then (if p c then i else npos) else r

/-- The call `s.find_first_not_of(set)`. -/
def find_first_not_of (s set : Str) : Nat :=
  find_first_from (fun c => !set.contains c) 0 s

/-- The call `s.find_last_not_of(set)`. -/
def find_last_not_of (s set : Str) : Nat :=
  find_last_from (fun c => !set.contains c) 0 s

/-- Index of the first occurrence of `needle` in `s`, counted from `i`; `npos` when absent. -/
def find_from (needle : Str) : Nat → Str → Nat
  | i, [] => if needle.isEmpty then i else npos
  | i, c :: cs => if needle.isPrefixOf (c :: cs) then i else find_from needle (i + 1) cs

/-- The call `s.find(needle)`. -/
def find (s needle : Str) : Nat :=
  find_from needle 0 s

/-- The characters `" \t"` both trimming loops pass to the `find_*_not_of` calls. -/
def blanks : Str := [' ', '\t']

/-- Byte-wise lexicographic `a < b` of `std::string`. -/
def str_lt : Str → Str → Bool
  | [], [] => false
  | [], _ :: _ => true
  | _ :: _, [] => false
  | a :: as, b :: bs =>
    if a.toNat < b.toNat then true
    else if b.toNat < a.toNat then false
    else str_lt as bs

/-- Insertion of one element into a list sorted by the strict comparison `less`. -/
def sort_insert {α : Type} (less : α → α → Bool) (x : α) : List α → List α
  | [] => [x]
  | y :: ys => if less x y then x :: y :: ys else y :: sort_insert less x ys

/-- The call `std::sort(first, last, less)`: the elements rearranged so that none is `less`
than one before it. The library leaves the order of equivalent elements open; every comparison
the program sorts with is a strict total order, where the outcome is unique. -/
def sort {α : Type} (less : α → α → Bool) : List α → List α
  | [] => []
  | x :: xs => sort_insert less x (sort less xs)

/-! ## Colours -/

namespace color

def reset : Str := str "\x1b[0m"
def bold : Str := str "\x1b[1m"
def red : Str := str "\x1b[31m"
def green : Str := str "\x1b[32m"
def yellow : Str := str "\x1b[33m"
def blue : Str := str "\x1b[34m"
def magenta : Str := str "\x1b[35m"
def cyan : Str := str "\x1b[36m"
def white : Str := str "\x1b[37m"
def gray : Str := str "\x1b[90m"

end color

/-- What `std::endl` inserts. -/
def endl : Str := ['\n']

/-! ## The file system -/

/-- An object of the file system, as the program observes it: a regular file, with the
result of `file.is_open()` on an `std::ifstream` constructed on it, the characters the opened
stream yields up to its end and the result of `entry.file_size()`; or an object of another
kind (a directory, a device), with the result of `file.is_open()` and what reading the opened
stream to its end does, `none` standing for the `std::ios_base::failure` the read throws (as
on a directory, which opens and cannot be read). -/
inductive Node where
  | regular (is_open : Bool) (content : Str) (file_size : Nat)
  | other (is_open : Bool) (read : Option Str)
  deriving DecidableEq

/-- Result of `entry.is_regular_file()`. -/
def Node.is_regular_file : Node → Bool
  | Node.regular _ _ _ => true
  | Node.other _ _ => false

/-- Result of `file.is_open()` on an `std::ifstream` constructed on the object. -/
def Node.is_open : Node → Bool
  | Node.regular is_open _ _ => is_open
  | Node.other is_open _ => is_open

/-- The characters of a regular file (the only objects whose content the mixer reads). -/
def Node.content : Node → Str
  | Node.regular _ content _ => content
  | Node.other _ _ => []

/-- Result of `entry.file_size()`, asked of regular files only. -/
def Node.file_size : Node → Nat
  | Node.regular _ _ file_size => file_size
  | Node.other _ _ => 0

/-- Reading the opened stream to its end with `std::istreambuf_iterator`: the characters read,
or `none` when the read throws. -/
def Node.read : Node → Option Str
  | Node.regular _ content _ => some content
  | Node.other _ read => read

/-- What `fs::exists` and `fs::is_directory` say about a search root. -/
inductive RootKind where
  | missing
  | not_directory
  | directory
  deriving DecidableEq

/-- A search root: its path, its kind, for a directory the file names
`fs::directory_iterator` yields (in its order) with the object under each of them, and the
resolution of paths below it: `lookup relative` is the object `path / relative` designates,
`none` when `fs::exists` says there is none. The relative path may hold separators, so it can
designate an object that is not among the entries of the directory itself. -/
structure Root where
  path : Str
  kind : RootKind
  entries : List Str
  node : Str → Node
  lookup : Str → Option Node

/-- An `fs::path` of a directory entry together with the object it designates. -/
structure FsPath where
  text : Str
  node : Node

/-- The suffix `".gitignore"` of template files (10 characters). -/
def suffix : Str := str ".gitignore"

/-- The test `fs::exists(path) && fs::is_directory(path)` on a search root. -/
def Root.is_dir (r : Root) : Bool :=
  r.kind = RootKind.directory

/-- Insertion of `operator<<` for an `fs::path`: the path text, quoted and escaped. -/
def quoted (p : Str) : Str :=
  ['"'] ++ (p.map (fun c => if c = '"' ∨ c = '\\' then ['\\', c] else [c])).flatten ++ ['"']

/-- Decimal digits `operator<<` inserts for an integer. -/
def to_string (n : Nat) : Str :=
  (Nat.repr n).toList

/-! ## `main.cpp`: class `AutoIgnore` -/

namespace AutoIgnore

/-- What an invocation leaves behind: the new content of the output file (`none` when the
program did not write it), the text the program inserted into `std::cout` and `std::cerr`,
and whether an exception that nothing catches ended the process (`std::terminate`), in which
case the effects are those up to the throw. -/
structure Effects where
  file : Option Str
  cout : Str
  cerr : Str
  terminated : Bool

/-- The output file before the run: whether `file.open` succeeds on it and what it holds
(nothing when it does not exist yet). It is none of the template files. -/
structure Target where
  can_open : Bool
  old : Str

/-- The call `templates.insert(name)` on the `std::unordered_set`, kept here in the order of
first insertion (the container leaves its order open). -/
def set_insert (templates : List Str) (name : Str) : List Str :=
  if templates.contains name then templates else templates ++ [name]

/-- The method `get_available_templates`. -/
def get_available_templates (template_paths : List Root) : List Str :=
  template_paths.foldl
    (fun templates path =>
      if !path.is_dir then templates
      else
        path.entries.foldl
          (fun templates filename =>
            if (path.node filename).is_regular_file then
              if ends_with filename suffix then
                set_insert templates (substr filename 0 (filename.length - 10))
              else templates
            else templates)
          templates)
    []

/-- The method `read_template`; `none` stands for the exception the read of an opened
stream throws, which the method does not catch. -/
def read_template : List Root → Str → Option Str
  | [], _ => some []
  | path :: rest, template_name =>
    let template_file := template_name ++ suffix
    match path.lookup template_file with
    | some file =>
      if file.is_open then file.read
      else read_template rest template_name
    | none => read_template rest template_name

/-- The method `print_header`. -/
def print_header : Str :=
  color.bold ++ color.cyan ++ str "autoignore" ++ color.reset
    ++ color.gray ++ str " - GitIgnore template generator" ++ color.reset ++ endl
    ++ color.gray ++ str "Author: AnmiTaliDev | License: Apache 2.0" ++ color.reset ++ endl
    ++ endl

/-- The method `print_usage`. -/
def print_usage : Str :=
  color.bold ++ str "Usage:" ++ color.reset ++ endl
    ++ str "  autoignore [OPTIONS] [TEMPLATES...]" ++ endl
    ++ endl
    ++ color.bold ++ str "Options:" ++ color.reset ++ endl
    ++ str "  -l, --list      List available templates" ++ endl
    ++ str "  -o, --output    Output file (default: .gitignore)" ++ endl
    ++ str "  -a, --append    Append to existing file instead of overwriting" ++ endl
    ++ str "  -v, --verbose   Verbose output" ++ endl
    ++ str "  -h, --help      Show this help message" ++ endl
    ++ endl
    ++ color.bold ++ str "Examples:" ++ color.reset ++ endl
    ++ str "  autoignore cpp python" ++ endl
    ++ str "  autoignore -l" ++ endl
    ++ str "  autoignore -o .gitignore_custom node" ++ endl
    ++ str "  autoignore -a rust" ++ endl

/-- The method `list_templates`: the text it inserts into `std::cout`. -/
def list_templates (template_paths : List Root) : Str :=
  let templates := get_available_templates template_paths
  if templates.isEmpty then
    color.yellow ++ str "No templates found." ++ color.reset ++ endl
      ++ color.gray ++ str "Templates should be located in:" ++ color.reset ++ endl
      ++ (template_paths.map
            (fun path => str "  " ++ color.cyan ++ quoted path.path ++ color.reset ++ endl)).flatten
  else
    let templates := sort str_lt templates
    color.bold ++ str "Available templates:" ++ color.reset ++ endl
      ++ (templates.map
            (fun tmpl => str "  " ++ color.green ++ tmpl ++ color.reset ++ endl)).flatten
      ++ endl
      ++ color.gray ++ str "Template locations:" ++ color.reset ++ endl
      ++ (template_paths.map
            (fun path =>
              if path.kind ≠ RootKind.missing then
                str "  " ++ color.cyan ++ quoted path.path ++ color.reset
                  ++ (if path.kind = RootKind.directory then
                        color.gray ++ str " (" ++ to_string path.entries.length
                          ++ str " files)" ++ color.reset
                      else [])
                  ++ endl
              else
                str "  " ++ color.gray ++ quoted path.path ++ str " (not found)"
                  ++ color.reset ++ endl)).flatten

/-- The header loop of `generate_gitignore`: from index `i` on, each name followed by `", "`
while `i < templates.size() - 1` (the subtraction is only reached with a non-empty vector). -/
def header_names (size : Nat) : Nat → List Str → Str
  | _, [] => []
  | i, t :: ts =>
    t ++ (if i < size - 1 then str ", " else []) ++ header_names size (i + 1) ts

/-- The variables the template loop of `generate_gitignore` updates. -/
structure GenState where
  file : Str
  cout : Str
  cerr : Str
  any_template_found : Bool

/-- One turn of the template loop of `generate_gitignore`, from the content `read_template`
returned on. -/
def generate_step (verbose : Bool) (st : GenState) (template_name content : Str) : GenState :=
  if content.isEmpty then
    { st with
      cerr := st.cerr ++ color.yellow ++ str "Warning: Template '" ++ template_name
        ++ str "' not found" ++ color.reset ++ endl }
  else
    { file := st.file ++ str "# " ++ template_name ++ endl ++ content
        ++ (if !ends_with_char content '\n' then endl else []) ++ endl
      cout := st.cout
        ++ (if verbose then
              color.green ++ str "Adding template: " ++ template_name ++ color.reset ++ endl
            else [])
      cerr := st.cerr
      any_template_found := true }

/-- The template loop of `generate_gitignore`: the variables when the loop is left, and
whether it is left by the exception of `read_template`. -/
def generate_loop (template_paths : List Root) (verbose : Bool) :
    List Str → GenState → GenState × Bool
  | [], st => (st, false)
  | template_name :: rest, st =>
    match read_template template_paths template_name with
    | none => (st, true)
    | some content =>
      generate_loop template_paths verbose rest (generate_step verbose st template_name content)

/-- The method `generate_gitignore`. Every insertion into the file ends with a flushing
`std::endl` before the next template is read, so what was written is in the file when a read
throws. -/
def generate_gitignore (template_paths : List Root) (verbose : Bool) (templates : List Str)
    (output_file : Str) (append : Bool) (target : Target) : Effects :=
  let opening : Str :=
    if verbose then
      color.blue ++ (if append then str "Appending to " else str "Writing to ")
        ++ output_file ++ color.reset ++ endl
    else []
  if !target.can_open then
    { file := none
      cout := opening
      cerr := color.red ++ str "Error: Cannot open file " ++ output_file ++ color.reset ++ endl
      terminated := false }
  else
    let header : Str :=
      str "# Generated by autoignore" ++ endl
        ++ str "# Templates: " ++ header_names templates.length 0 templates ++ endl
        ++ endl
    let left := generate_loop template_paths verbose templates
      { file := header, cout := opening, cerr := [], any_template_found := false }
    let st := left.1
    if left.2 then
      { file := some ((if append then target.old else []) ++ st.file)
        cout := st.cout
        cerr := st.cerr
        terminated := true }
    else
      { file := some ((if append then target.old else []) ++ st.file)
        cout := st.cout
          ++ (if st.any_template_found then
                color.green ++ str "Successfully generated " ++ output_file ++ color.reset ++ endl
              else [])
        cerr := st.cerr
          ++ (if st.any_template_found then []
              else color.red ++ str "Error: No valid templates found" ++ color.reset ++ endl)
        terminated := false }

/-- The option variables of `run`. -/
structure Flags where
  list_mode : Bool
  append_mode : Bool
  verbose : Bool
  output_file : Str

/-- Outcome of the option loop of `run`: it returned from `run`, or it ran to its end. -/
inductive Parse where
  | returned (code : Nat) (fx : Effects)
  | finished (flags : Flags)

/-- The option loop of `run` over the values `getopt_long` returns one after the other, each
with its `optarg`. -/
def run_options : List (Char × Str) → Flags → Parse
  | [], flags => Parse.finished flags
  | (c, optarg) :: rest, flags =>
    if c = 'l' then run_options rest { flags with list_mode := true }
    else if c = 'o' then run_options rest { flags with output_file := optarg }
    else if c = 'a' then run_options rest { flags with append_mode := true }
    else if c = 'v' then run_options rest { flags with verbose := true }
    else if c = 'h' then
      Parse.returned 0
        { file := none, cout := print_header ++ print_usage, cerr := [], terminated := false }
    else if c = '?' then
      Parse.returned 1
        { file := none
          cout := []
          cerr := color.red ++ str "Invalid option" ++ color.reset ++ endl
          terminated := false }
    else run_options rest flags

/-- The method `run`: the exit status it returns (`none` when the process is terminated before
`run` returns) and the effects, given the values `getopt_long` returns and the arguments left
from `optind` on. -/
def run (template_paths : List Root) (options : List (Char × Str)) (arguments : List Str)
    (target : Target) : Option Nat × Effects :=
  match run_options options
      { list_mode := false, append_mode := false, verbose := false,
        output_file := str ".gitignore" } with
  | Parse.returned code fx => (some code, fx)
  | Parse.finished flags =>
    if flags.list_mode then
      (some 0,
        { file := none
          cout := print_header ++ list_templates template_paths
          cerr := []
          terminated := false })
    else
      let templates := arguments
      if templates.isEmpty then
        (some 1,
          { file := none
            cout := print_header ++ endl ++ print_usage
            cerr := color.red ++ str "Error: No templates specified" ++ color.reset ++ endl
            terminated := false })
      else
        let fx := generate_gitignore template_paths flags.verbose templates flags.output_file
          flags.append_mode target
        (if fx.terminated then none else some 0,
          { fx with cout := (if flags.verbose then print_header else []) ++ fx.cout })

end AutoIgnore

/-! ## `template_mix.cpp`: class `TemplateMixer` -/

namespace TemplateMixer

/-- The struct `TemplateInfo` (its `description` is never assigned and stays empty). -/
structure TemplateInfo where
  name : Str
  path : FsPath
  size : Nat
  description : Str

/-- The entry loop of `scan_templates` over the names a directory iterator yields; the
`std::unordered_map` is kept in the order of first insertion. -/
def scan_entries (base_path : Root) :
    List Str → List (Str × TemplateInfo) → List (Str × TemplateInfo)
  | [], templates => templates
  | filename :: rest, templates =>
    if !(base_path.node filename).is_regular_file then scan_entries base_path rest templates
    else if !ends_with filename suffix then scan_entries base_path rest templates
    else
      let name := substr filename 0 (filename.length - 10)
      let size := (base_path.node filename).file_size
      if templates.all (fun kv => kv.1 != name) then
        scan_entries base_path rest
          (templates ++
            [(name,
              { name := name
                path := { text := base_path.path ++ str "/" ++ filename
                          node := base_path.node filename }
                size := size
                description := [] })])
      else scan_entries base_path rest templates

/-- The root loop of `scan_templates`: the map after all roots. -/
def scan_roots : List Root → List (Str × TemplateInfo) → List (Str × TemplateInfo)
  | [], templates => templates
  | base_path :: rest, templates =>
    if !base_path.is_dir then scan_roots rest templates
    else scan_roots rest (scan_entries base_path base_path.entries templates)

/-- The method `scan_templates`. -/
def scan_templates (template_paths : List Root) : List TemplateInfo :=
  let templates := scan_roots template_paths []
  let result := templates.map (fun pair => pair.2)
  sort (fun a b => str_lt a.name b.name) result

/-- The method `read_template_content`. -/
def read_template_content (template_path : FsPath) : Str :=
  if !template_path.node.is_open then [] else template_path.node.content

/-- The scan loop of `extract_description` over the lines of the content: the final
`desc_lines`. -/
def description_lines : List Str → List Str → List Str
  | [], desc_lines => desc_lines
  | line :: rest, desc_lines =>
    if line.isEmpty then description_lines rest desc_lines
    else if line.head? != some '#' then desc_lines
    else
      let desc := substr line 1 npos
      let desc := if !desc.isEmpty && desc.head? == some ' ' then substr desc 1 npos else desc
      if !desc.isEmpty && desc != str "gitignore" && find desc (str "Generated") == npos then
        let desc_lines := desc_lines ++ [desc]
        if desc_lines.length ≥ 2 then desc_lines else description_lines rest desc_lines
      else description_lines rest desc_lines

/-- The method `extract_description`. -/
def extract_description (content : Str) : Str :=
  match description_lines (getlines content) [] with
  | [] => str "No description"
  | first :: more =>
    let result :=
      match more with
      | [] => first
      | second :: _ => first ++ (str " " ++ second)
    if result.length > 60 then substr result 0 57 ++ str "..." else result

/-- The two `erase` calls that trim a line in `analyze_template_conflicts`; the position of
the second one is `find_last_not_of(" \t") + 1` in `size_t` arithmetic. -/
def trim (line : Str) : Option Str :=
  match erase line 0 (find_first_not_of line blanks) with
  | none => none
  | some line => erase line ((find_last_not_of line blanks + 1) % SIZE_MOD) npos

/-- The line loop of `analyze_template_conflicts` over the lines of one template; `emit` is
what the loop does with a trimmed non-empty line, `none` an exception leaving the loop. -/
def pattern_loop {σ : Type} (emit : σ → Str → σ) : List Str → σ → Option σ
  | [], acc => some acc
  | line :: rest, acc =>
    if line.isEmpty || line.head? == some '#' then pattern_loop emit rest acc
    else
      match trim line with
      | none => none
      | some line =>
        if !line.isEmpty then pattern_loop emit rest (emit acc line)
        else pattern_loop emit rest acc

/-- The patterns of a content: the lines the loop of `analyze_template_conflicts` records,
in the order it records them. -/
def extract_patterns (content : Str) : Option (List Str) :=
  pattern_loop (fun patterns line => patterns ++ [line]) (getlines content) []

/-- The statement `pattern_sources[line].push_back(name)` on the `std::unordered_map`, kept
in the order of first insertion. -/
def push_source : List (Str × List Str) → Str → Str → List (Str × List Str)
  | [], line, name => [(line, [name])]
  | (key, sources) :: rest, line, name =>
    if key = line then (key, sources ++ [name]) :: rest
    else (key, sources) :: push_source rest line name

/-- The name loop of `analyze_template_conflicts`: the final `pattern_sources`. -/
def collect_sources (template_paths : List Root) :
    List Str → List (Str × List Str) → Option (List (Str × List Str))
  | [], pattern_sources => some pattern_sources
  | name :: rest, pattern_sources =>
    let templates := scan_templates template_paths
    match templates.find? (fun t => t.name == name) with
    | none => collect_sources template_paths rest pattern_sources
    | some it =>
      let content := read_template_content it.path
      match pattern_loop (fun sources line => push_source sources line name)
          (getlines content) pattern_sources with
      | none => none
      | some pattern_sources => collect_sources template_paths rest pattern_sources

/-- The vector `conflicts` of `analyze_template_conflicts`: the entries of `pattern_sources`
with more than one source. -/
def conflicts (template_paths : List Root) (template_names : List Str) :
    Option (List (Str × List Str)) :=
  match collect_sources template_paths template_names [] with
  | none => none
  | some pattern_sources => some (pattern_sources.filter (fun pair => pair.2.length > 1))

/-- The source list of one conflict as printed: the names separated by `", "`. -/
def print_sources (size : Nat) : Nat → List Str → Str
  | _, [] => []
  | i, name :: rest =>
    name ++ (if i < size - 1 then str ", " else []) ++ print_sources size (i + 1) rest

/-- The method `analyze_template_conflicts`: the text it inserts into `std::cout`. -/
def analyze_template_conflicts (template_paths : List Root) (template_names : List Str) :
    Option Str :=
  match conflicts template_paths template_names with
  | none => none
  | some conflicts =>
    if !conflicts.isEmpty then
      some (color.yellow ++ str "Potential pattern conflicts detected:" ++ color.reset ++ endl
        ++ (conflicts.map
              (fun conflict =>
                str "  " ++ color.cyan ++ conflict.1 ++ color.reset ++ color.gray
                  ++ str " (from: " ++ print_sources conflict.2.length 0 conflict.2
                  ++ str ")" ++ color.reset ++ endl)).flatten
        ++ endl)
    else some []

/-- The comparison `optimize_template_order` sorts with. -/
def order_less (a b : Str) : Bool :=
  let base_templates : List Str := [str "global", str "macos", str "windows", str "linux"]
  let a_is_base := base_templates.contains a
  let b_is_base := base_templates.contains b
  if a_is_base != b_is_base then a_is_base
  else str_lt a b

/-- The method `optimize_template_order`: the vector after the call. -/
def optimize_template_order (template_names : List Str) : List Str :=
  sort order_less template_names

/-- The counting loop of `preview_mix` over the lines of one template, from the counters
`(lines, patterns)` on. -/
def count_loop : List Str → Nat × Nat → Option (Nat × Nat)
  | [], counters => some counters
  | line :: rest, (lines, patterns) =>
    if !line.isEmpty && line.head? != some '#' then
      match erase line 0 (find_first_not_of line blanks) with
      | none => none
      | some line =>
        count_loop rest (lines + 1, if !line.isEmpty then patterns + 1 else patterns)
    else count_loop rest (lines + 1, patterns)

/-- The counters `(lines, patterns)` the loop of `preview_mix` computes for one content. -/
def count_lines (content : Str) : Option (Nat × Nat) :=
  count_loop (getlines content) (0, 0)

/-- The template loop of `preview_mix`: the text inserted into `std::cout` and the totals
`(total_lines, total_patterns)`. -/
def preview_loop (templates : List TemplateInfo) (verbose : Bool) :
    List Str → Str × Nat × Nat → Option (Str × Nat × Nat)
  | [], acc => some acc
  | name :: rest, (cout, total_lines, total_patterns) =>
    match templates.find? (fun t => t.name == name) with
    | none =>
      preview_loop templates verbose rest
        (cout ++ color.yellow ++ str "Warning: Template '" ++ name ++ str "' not found"
          ++ color.reset ++ endl, total_lines, total_patterns)
    | some it =>
      match count_lines (read_template_content it.path) with
      | none => none
      | some (lines, patterns) =>
        preview_loop templates verbose rest
          (cout
            ++ (if verbose then
                  color.cyan ++ name ++ color.reset ++ str ": " ++ to_string lines
                    ++ str " lines, " ++ to_string patterns ++ str " patterns" ++ endl
                else []),
            total_lines + lines, total_patterns + patterns)

/-- The method `preview_mix`: the text inserted into `std::cout` and into `std::cerr`. -/
def preview_mix (template_paths : List Root) (verbose : Bool) (template_names : List Str) :
    Option (Str × Str) :=
  if template_names.isEmpty then
    some ([], color.red ++ str "No templates specified for preview" ++ color.reset ++ endl)
  else
    let head : Str :=
      color.bold ++ str "Preview of template mix:" ++ color.reset ++ endl
        ++ (template_names.map
              (fun name => str "  " ++ color.green ++ name ++ color.reset)).flatten
        ++ endl ++ endl
    match (if template_names.length > 1 then
            analyze_template_conflicts template_paths template_names
          else some []) with
    | none => none
    | some report =>
      match preview_loop (scan_templates template_paths) verbose template_names
          (head ++ report, 0, 0) with
      | none => none
      | some (cout, total_lines, total_patterns) =>
        some (cout ++ color.bold ++ str "Total: " ++ color.reset ++ to_string total_lines
          ++ str " lines, " ++ to_string total_patterns ++ str " ignore patterns" ++ endl, [])

end TemplateMixer

/-! ## Notions the statements use -/

/-- A space or a tab. -/
def is_blank (c : Char) : Bool :=
  c == ' ' || c == '\t'

/-- A line with its leading and trailing spaces and tabs removed. -/
def strip_blanks (line : Str) : Str :=
  (line.dropWhile is_blank).rdropWhile is_blank

/-- The pattern a line as read contributes: none when the line is empty or begins with `'#'`,
or when nothing is left of it once its blanks are stripped. -/
def line_pattern (line : Str) : Option Str :=
  if line = [] ∨ line.head? = some '#' then none
  else if strip_blanks line = [] then none
  else some (strip_blanks line)

/-- The pattern list of a requested name in `analyze_template_conflicts`: the patterns of
the content the name resolves to through `scan_templates`, and no pattern when the name does
not resolve. -/
def template_patterns (template_paths : List Root) (name : Str) : List Str :=
  match (TemplateMixer.scan_templates template_paths).find? (fun t => t.name == name) with
  | none => []
  | some it => (TemplateMixer.extract_patterns (TemplateMixer.read_template_content it.path)).getD []

/-- The text of a comment line: the line without its `'#'` and without one space after it,
when there is one. -/
def comment_text (line : Str) : Str :=
  if (line.drop 1).head? = some ' ' then line.drop 2 else line.drop 1

/-- A comment text that counts for the description: it is non-empty, is not exactly
`gitignore` and does not contain `Generated`. -/
def qualifies (text : Str) : Prop :=
  text ≠ [] ∧ text ≠ str "gitignore" ∧ ¬ (str "Generated" <:+: text)

instance (text : Str) : Decidable (qualifies text) := by
  unfold qualifies
  infer_instance

/-- A system root holding the one template `cpp`, whose last line is not terminated. -/
def sample_root : Root :=
  { path := str "/usr/share/autoignore/template"
    kind := RootKind.directory
    entries := [str "cpp.gitignore"]
    node := fun _ => Node.regular true (str "*.o\nbuild/") 10
    lookup := fun relative =>
      if relative = str "cpp.gitignore" then some (Node.regular true (str "*.o\nbuild/") 10)
      else none }

/-- An output file that does not exist yet and can be created. -/
def fresh_target : AutoIgnore.Target :=
  { can_open := true, old := [] }

/-- A root holding the templates `a` and `b`, which share the pattern `*.log`. -/
def shared_root : Root :=
  { path := str "/usr/share/autoignore/template"
    kind := RootKind.directory
    entries := [str "b.gitignore", str "a.gitignore", str "notes.txt"]
    node := fun file_name =>
      if file_name = str "a.gitignore" then Node.regular true (str "*.log\nbuild/\n") 13
      else Node.regular true (str "# b\n*.log\n") 10
    lookup := fun relative =>
      if relative = str "a.gitignore" then some (Node.regular true (str "*.log\nbuild/\n") 13)
      else if relative = str "b.gitignore" ∨ relative = str "notes.txt" then
        some (Node.regular true (str "# b\n*.log\n") 10)
      else none }

/-- A root holding the template `a`, which lists `*.log` twice, and the template `b`. -/
def repeated_root : Root :=
  { path := str "/usr/share/autoignore/template"
    kind := RootKind.directory
    entries := [str "a.gitignore", str "b.gitignore"]
    node := fun file_name =>
      if file_name = str "a.gitignore" then Node.regular true (str "*.log\n*.log\n") 12
      else Node.regular true (str "*.tmp\n") 6
    lookup := fun relative =>
      if relative = str "a.gitignore" then some (Node.regular true (str "*.log\n*.log\n") 12)
      else if relative = str "b.gitignore" then some (Node.regular true (str "*.tmp\n") 6)
      else none }

/-- A root holding a directory named `x.gitignore`, which opens and cannot be read, and the
template `cpp`. -/
def directory_root : Root :=
  { path := str "/usr/share/autoignore/template"
    kind := RootKind.directory
    entries := [str "x.gitignore", str "cpp.gitignore"]
    node := fun file_name =>
      if file_name = str "x.gitignore" then Node.other true none
      else Node.regular true (str "*.o\n") 4
    lookup := fun relative =>
      if relative = str "x.gitignore" then some (Node.other true none)
      else if relative = str "cpp.gitignore" then some (Node.regular true (str "*.o\n") 4)
      else none }

open AutoIgnore TemplateMixer

/-! ## Strings -/

theorem getlines_cons (c : Char) (cs : Str) :
    getlines (c :: cs) = if c = '\n' then [] :: getlines cs
      else match getlines cs with
        | [] => [[c]]
        | l :: ls => (c :: l) :: ls := by
  rw [getlines]

theorem getlines_ne_nil (c : Char) (cs : Str) : getlines (c :: cs) ≠ [] := by
  simp only [getlines]
  split_ifs
  · simp
  · split <;> simp

theorem getlines_append_newline (a b : Str) :
    getlines (a ++ '\n' :: b) = getlines (a ++ ['\n']) ++ getlines b := by
  induction a with
  | nil => simp [getlines]
  | cons c a ih =>
    rw [List.cons_append, List.cons_append]
    simp only [getlines]
    by_cases hc : c = '\n'
    · simp [hc, ih]
    · simp only [if_neg hc]
      cases h : getlines (a ++ ['\n']) with
      | nil =>
        cases a with
        | nil => simp [getlines] at h
        | cons x xs => exact absurd h (getlines_ne_nil _ _)
      | cons l ls => rw [ih, h]; simp

theorem getlines_snoc_newline (c : Str) (hne : c ≠ []) (hlast : c.getLast? ≠ some '\n') :
    getlines (c ++ ['\n']) = getlines c := by
  induction c with
  | nil => exact absurd rfl hne
  | cons x xs ih =>
    cases xs with
    | nil =>
      have hx : x ≠ '\n' := by simpa using hlast
      simp [getlines, hx]
    | cons y ys =>
      have hl : (y :: ys).getLast? ≠ some '\n' := by
        simpa [List.getLast?_cons_cons] using hlast
      have := ih (by simp) hl
      rw [List.cons_append, getlines_cons x, this, getlines_cons x (y :: ys)]

theorem getlines_length_le (s : Str) : ∀ l ∈ getlines s, l.length ≤ s.length := by
  induction s with
  | nil => simp [getlines]
  | cons c cs ih =>
    intro l hl
    simp only [getlines] at hl
    split_ifs at hl with hc
    · rcases List.mem_cons.1 hl with h | h
      · simp [h]
      · have := ih l h; simp; omega
    · split at hl
      · simp at hl; simp [hl]
      · rename_i l0 ls heq
        rcases List.mem_cons.1 hl with h | h
        · have := ih l0 (by rw [heq]; simp); simp [h]; omega
        · have := ih l (by rw [heq]; simp [h]); simp; omega

theorem getlines_eq_getline (s : Str) :
    getlines s = match getline s with
      | none => []
      | some (l, rest) => l :: getlines rest := by
  induction s with
  | nil => simp [getlines, getline]
  | cons c cs ih =>
    simp only [getlines, getline]
    by_cases hc : c = '\n'
    · simp [hc]
    · simp only [if_neg hc]
      rw [ih]
      cases h : getline cs with
      | none => simp [getlines]
      | some p => obtain ⟨l, rest⟩ := p; simp

theorem getlines_no_newline (s : Str) : ∀ l ∈ getlines s, '\n' ∉ l := by
  induction s with
  | nil => simp [getlines]
  | cons c cs ih =>
    intro l hl
    simp only [getlines] at hl
    split_ifs at hl with hc
    · rcases List.mem_cons.1 hl with h | h
      · simp [h]
      · exact ih l h
    · split at hl
      · simp at hl; simp [hl]; exact fun h => hc h.symm
      · rename_i l0 ls heq
        rcases List.mem_cons.1 hl with h | h
        · have := ih l0 (by rw [heq]; simp)
          simp [h]; exact ⟨fun h => hc h.symm, this⟩
        · exact ih l (by rw [heq]; simp [h])

theorem getlines_join (s : Str) :
    (getlines s).flatMap (fun l => l ++ ['\n'])
      = if s = [] ∨ s.getLast? = some '\n' then s else s ++ ['\n'] := by
  induction s with
  | nil => simp [getlines]
  | cons c cs ih =>
    rw [getlines_cons]
    by_cases hc : c = '\n'
    · subst hc
      rw [if_pos rfl, List.flatMap_cons, ih]
      cases cs with
      | nil => simp
      | cons d ds =>
        by_cases hl : (d :: ds).getLast? = some '\n'
        · have : ('\n' :: d :: ds).getLast? = some '\n' := by
            rw [List.getLast?_cons_cons]; exact hl
          simp [hl, this]
        · have : ¬ ('\n' :: d :: ds).getLast? = some '\n' := by
            rw [List.getLast?_cons_cons]; exact hl
          simp [hl, this]
    · rw [if_neg hc]
      cases cs with
      | nil => simp [getlines, hc]
      | cons d ds =>
        have hne := getlines_ne_nil d ds
        cases hg : getlines (d :: ds) with
        | nil => exact absurd hg hne
        | cons l ls =>
          rw [hg] at ih
          simp only [List.flatMap_cons] at ih ⊢
          by_cases hl : (d :: ds).getLast? = some '\n'
          · have : (c :: d :: ds).getLast? = some '\n' := by
              rw [List.getLast?_cons_cons]; exact hl
            simp only [hl, this, or_true, if_true, reduceCtorEq, false_or] at ih ⊢
            rw [List.cons_append, List.cons_append, ih]
          · have : ¬ (c :: d :: ds).getLast? = some '\n' := by
              rw [List.getLast?_cons_cons]; exact hl
            simp only [hl, this, or_false, if_false, reduceCtorEq] at ih ⊢
            rw [List.cons_append, List.cons_append, ih]
            simp

theorem find_first_from_none (p : Char → Bool) :
    ∀ (l : Str) (i : Nat), (∀ c ∈ l, p c = false) → find_first_from p i l = npos := by
  intro l
  induction l with
  | nil => intro i _; rfl
  | cons c cs ih =>
    intro i h
    have hc : p c = false := h c (List.mem_cons_self _ _)
    simp only [find_first_from, hc, Bool.false_eq_true, if_false]
    exact ih (i + 1) (fun x hx => h x (List.mem_cons_of_mem _ hx))

theorem find_first_from_some (p : Char → Bool) :
    ∀ (l : Str) (i : Nat), (∃ c ∈ l, p c = true) →
      find_first_from p i l = i + (l.takeWhile (fun c => !p c)).length := by
  intro l
  induction l with
  | nil => intro i h; simp at h
  | cons c cs ih =>
    intro i h
    by_cases hc : p c = true
    · simp [find_first_from, hc]
    · have hc' : p c = false := by simpa using hc
      have hrest : ∃ x ∈ cs, p x = true := by
        obtain ⟨x, hx, hpx⟩ := h
        rcases List.mem_cons.1 hx with e | e
        · rw [e, hc'] at hpx; exact absurd hpx (by simp)
        · exact ⟨x, e, hpx⟩
      simp only [find_first_from, hc', Bool.false_eq_true, if_false, List.takeWhile_cons,
        Bool.not_false, if_true, List.length_cons]
      rw [ih (i + 1) hrest]; omega

theorem find_last_from_none (p : Char → Bool) :
    ∀ (l : Str) (i : Nat), (∀ c ∈ l, p c = false) → find_last_from p i l = npos := by
  intro l
  induction l with
  | nil => intro i _; rfl
  | cons c cs ih =>
    intro i h
    have hc : p c = false := h c (List.mem_cons_self _ _)
    have hr := ih (i + 1) (fun x hx => h x (List.mem_cons_of_mem _ hx))
    simp [find_last_from, hc, hr]

theorem rdropWhile_cons (q : Char → Bool) (c : Char) (cs : Str) :
    List.rdropWhile q (c :: cs)
      = if List.rdropWhile q cs = [] then (if q c then [] else [c])
        else c :: List.rdropWhile q cs := by
  simp only [List.rdropWhile, List.reverse_cons, List.dropWhile_append]
  by_cases h : List.dropWhile q cs.reverse = []
  · simp [h, List.dropWhile]
    by_cases hq : q c = true <;> simp [hq]
  · simp [h]

theorem find_last_from_some (p : Char → Bool) :
    ∀ (l : Str) (i : Nat), (∃ c ∈ l, p c = true) → i + l.length ≤ npos →
      find_last_from p i l + 1 = i + (l.rdropWhile (fun c => !p c)).length := by
  intro l
  induction l with
  | nil => intro i h; simp at h
  | cons c cs ih =>
    intro i h hlen
    simp only [List.length_cons] at hlen
    by_cases hrest : ∃ x ∈ cs, p x = true
    · have hr := ih (i + 1) hrest (by omega)
      have hne : List.rdropWhile (fun c => !p c) cs ≠ [] := by
        intro he
        rw [List.rdropWhile_eq_nil_iff] at he
        obtain ⟨x, hx, hpx⟩ := hrest
        have := he x hx
        simp [hpx] at this
      have hle : (List.rdropWhile (fun c => !p c) cs).length ≤ cs.length :=
        (List.rdropWhile_prefix _ cs).length_le
      have hnp : find_last_from p (i + 1) cs ≠ npos := by omega
      simp only [find_last_from, hnp, if_false, rdropWhile_cons, hne, List.length_cons]
      omega
    · have hall : ∀ x ∈ cs, p x = false := by
        intro x hx
        by_contra hp
        exact hrest ⟨x, hx, by simpa using hp⟩
      have hr := find_last_from_none p cs (i + 1) hall
      have hc : p c = true := by
        obtain ⟨x, hx, hpx⟩ := h
        rcases List.mem_cons.1 hx with e | e
        · rw [← e]; exact hpx
        · rw [hall x e] at hpx; exact absurd hpx (by simp)
      have hnil : List.rdropWhile (fun c => !p c) cs = [] := by
        rw [List.rdropWhile_eq_nil_iff]
        intro x hx; simp [hall x hx]
      simp [find_last_from, hr, hc, rdropWhile_cons, hnil]

theorem drop_takeWhile_length (q : Char → Bool) (l : Str) :
    l.drop (l.takeWhile q).length = l.dropWhile q := by
  induction l with
  | nil => rfl
  | cons c cs ih =>
    by_cases hq : q c = true
    · simp [List.takeWhile_cons, List.dropWhile_cons, hq, ih]
    · simp [List.takeWhile_cons, List.dropWhile_cons, hq]

theorem not_blanks_contains : (fun c => !blanks.contains c) = fun c => !is_blank c := by
  funext c
  by_cases h1 : c = ' ' <;> by_cases h2 : c = '\t' <;> simp [blanks, is_blank, h1, h2]

theorem npos_succ_mod : (npos + 1) % SIZE_MOD = 0 := by decide

theorem erase_leading_blanks (line : Str) (hlen : line.length < npos) :
    erase line 0 (find_first_not_of line blanks) = some (line.dropWhile is_blank) := by
  have hp : (fun c => !(fun c => !is_blank c) c) = is_blank := by funext c; simp
  have e1 : ¬ 0 > line.length := by omega
  by_cases hex : ∃ c ∈ line, (fun c => !is_blank c) c = true
  · have h1 := find_first_from_some (fun c => !is_blank c) line 0 hex
    rw [hp, Nat.zero_add] at h1
    have hk : (line.takeWhile is_blank).length ≤ line.length := by
      have := congrArg List.length (List.takeWhile_append_dropWhile is_blank line)
      simp only [List.length_append] at this; omega
    simp only [find_first_not_of, not_blanks_contains, erase, h1, e1, if_false, List.take_zero,
      List.nil_append, Nat.zero_add, Nat.sub_zero, Nat.min_eq_left hk,
      drop_takeWhile_length is_blank line]
  · have hall : ∀ c ∈ line, (fun c => !is_blank c) c = false := by
      intro c hc
      by_contra hp
      exact hex ⟨c, hc, by simpa using hp⟩
    have h1 := find_first_from_none (fun c => !is_blank c) line 0 hall
    have hd : line.dropWhile is_blank = [] := by
      rw [List.dropWhile_eq_nil_iff]
      intro c hc; simpa using hall c hc
    have e3 : min npos line.length = line.length := by omega
    simp only [find_first_not_of, not_blanks_contains, erase, h1, e1, if_false, List.take_zero,
      List.nil_append, Nat.zero_add, Nat.sub_zero, e3, List.drop_length, hd]

theorem erase_trailing_blanks (line : Str) (hlen : line.length < npos) :
    erase line ((find_last_not_of line blanks + 1) % SIZE_MOD) npos
      = some (line.rdropWhile is_blank) := by
  have hp : (fun c => !(fun c => !is_blank c) c) = is_blank := by funext c; simp
  by_cases hex : ∃ c ∈ line, (fun c => !is_blank c) c = true
  · have h2 := find_last_from_some (fun c => !is_blank c) line 0 hex (by omega)
    rw [hp, Nat.zero_add] at h2
    have hm : (List.rdropWhile is_blank line).length ≤ line.length :=
      (List.rdropWhile_prefix _ _).length_le
    have hmod : (find_last_from (fun c => !is_blank c) 0 line + 1) % SIZE_MOD
        = (List.rdropWhile is_blank line).length := by
      rw [h2]
      apply Nat.mod_eq_of_lt
      have : npos < SIZE_MOD := by decide
      omega
    have htake : List.take (List.rdropWhile is_blank line).length line
        = List.rdropWhile is_blank line :=
      (List.prefix_iff_eq_take.1 (List.rdropWhile_prefix _ _)).symm
    have e2 : ¬ (List.rdropWhile is_blank line).length > line.length := by omega
    have e4 : (List.rdropWhile is_blank line).length
        + min npos (line.length - (List.rdropWhile is_blank line).length) = line.length := by
      omega
    simp only [find_last_not_of, not_blanks_contains, erase, hmod, e2, if_false, htake, e4,
      List.drop_length, List.append_nil]
  · have hall : ∀ c ∈ line, (fun c => !is_blank c) c = false := by
      intro c hc
      by_contra hp
      exact hex ⟨c, hc, by simpa using hp⟩
    have h2 := find_last_from_none (fun c => !is_blank c) line 0 hall
    have hd : line.rdropWhile is_blank = [] := by
      rw [List.rdropWhile_eq_nil_iff]
      intro c hc; simpa using hall c hc
    have e1 : ¬ 0 > line.length := by omega
    have e3 : min npos line.length = line.length := by omega
    simp only [find_last_not_of, not_blanks_contains, erase, h2, npos_succ_mod, e1, if_false,
      List.take_zero, List.nil_append, Nat.zero_add, Nat.sub_zero, e3, List.drop_length, hd]

theorem dropWhile_length_le (q : Char → Bool) (l : Str) : (l.dropWhile q).length ≤ l.length := by
  have := congrArg List.length (List.takeWhile_append_dropWhile q l)
  simp only [List.length_append] at this; omega

theorem trim_eq (line : Str) (hlen : line.length < npos) :
    trim line = some (strip_blanks line) := by
  have hlen2 := dropWhile_length_le is_blank line
  simp only [trim, erase_leading_blanks line hlen]
  exact erase_trailing_blanks _ (by omega)

theorem strip_blanks_eq_nil (line : Str) :
    strip_blanks line = [] ↔ line.dropWhile is_blank = [] := by
  constructor
  · intro h
    by_contra hne
    have hh := List.head_dropWhile_not is_blank line hne
    rw [strip_blanks, List.rdropWhile_eq_nil_iff] at h
    have := h _ (List.head_mem hne)
    rw [hh] at this; exact absurd this (by simp)
  · intro h; simp [strip_blanks, h, List.rdropWhile]

theorem strip_blanks_head (line : Str) : ∀ c, (strip_blanks line).head? = some c → is_blank c = false := by
  intro c hc
  have hpre : strip_blanks line <+: line.dropWhile is_blank := List.rdropWhile_prefix _ _
  obtain ⟨t, ht⟩ := hpre
  cases hs : strip_blanks line with
  | nil => rw [hs] at hc; simp at hc
  | cons x xs =>
    rw [hs] at hc ht
    simp at hc
    have hne : line.dropWhile is_blank ≠ [] := by rw [← ht]; simp
    have hh := List.head_dropWhile_not is_blank line hne
    have : (line.dropWhile is_blank).head hne = x := by
      simp [← ht]
    rw [this, hc] at hh; exact hh

theorem strip_blanks_last (line : Str) :
    ∀ c, (strip_blanks line).getLast? = some c → is_blank c = false := by
  intro c hc
  by_cases hne : strip_blanks line = []
  · rw [hne] at hc; simp at hc
  · have := List.rdropWhile_last_not is_blank (line.dropWhile is_blank) hne
    rw [List.getLast?_eq_getLast _ hne] at hc
    simp only [Option.some.injEq] at hc
    rw [← hc]
    simpa [strip_blanks] using this

/-! ## Pattern extraction -/

theorem foldl_snoc_eq (l : List Str) : ∀ acc : List Str,
    l.foldl (fun patterns line => patterns ++ [line]) acc = acc ++ l := by
  induction l with
  | nil => intro acc; simp
  | cons x xs ih => intro acc; simp [ih]

theorem pattern_loop_eq {σ : Type} (emit : σ → Str → σ) :
    ∀ (lines : List Str) (acc : σ), (∀ l ∈ lines, l.length < npos) →
      pattern_loop emit lines acc = some ((lines.filterMap line_pattern).foldl emit acc) := by
  intro lines
  induction lines with
  | nil => intro acc _; rfl
  | cons line rest ih =>
    intro acc hlen
    have hl := hlen line (List.mem_cons_self _ _)
    have hrest : ∀ l ∈ rest, l.length < npos := fun l h => hlen l (List.mem_cons_of_mem _ h)
    by_cases hskip : line = [] ∨ line.head? = some '#'
    · have hc : (line.isEmpty || line.head? == some '#') = true := by
        rcases hskip with h | h
        · simp [h]
        · simp [h]
      have hp : line_pattern line = none := by simp [line_pattern, hskip]
      simp only [pattern_loop, hc, if_true, List.filterMap_cons, hp]
      exact ih acc hrest
    · have hc : (line.isEmpty || line.head? == some '#') = false := by
        push_neg at hskip
        have h1 : line.isEmpty = false := by
          cases line with
          | nil => exact absurd rfl hskip.1
          | cons _ _ => rfl
        have h2 : (line.head? == some '#') = false := by
          simpa using hskip.2
        simp [h1, h2]
      simp only [pattern_loop, hc, Bool.false_eq_true, if_false, trim_eq line hl]
      by_cases hs : strip_blanks line = []
      · have hp : line_pattern line = none := by simp [line_pattern, hs]
        simp only [hs, List.isEmpty_nil, Bool.not_true, Bool.false_eq_true, if_false,
          List.filterMap_cons, hp]
        exact ih acc hrest
      · have hp : line_pattern line = some (strip_blanks line) := by
          simp [line_pattern, hskip, hs]
        have he : (!(strip_blanks line).isEmpty) = true := by
          cases h : strip_blanks line with
          | nil => exact absurd h hs
          | cons _ _ => rfl
        simp only [he, if_true, List.filterMap_cons, hp, List.foldl_cons]
        exact ih _ hrest

theorem extract_patterns_eq (content : Str) (hlen : content.length < npos) :
    extract_patterns content = some ((getlines content).filterMap line_pattern) := by
  have hl : ∀ l ∈ getlines content, l.length < npos := by
    intro l h
    have := getlines_length_le content l h
    omega
  rw [extract_patterns, pattern_loop_eq _ _ _ hl, foldl_snoc_eq]
  simp

theorem count_loop_eq : ∀ (lines : List Str) (n k : Nat), (∀ l ∈ lines, l.length < npos) →
    count_loop lines (n, k)
      = some (n + lines.length, k + (lines.filterMap line_pattern).length) := by
  intro lines
  induction lines with
  | nil => intro n k _; rfl
  | cons line rest ih =>
    intro n k hlen
    have hl := hlen line (List.mem_cons_self _ _)
    have hrest : ∀ l ∈ rest, l.length < npos := fun l h => hlen l (List.mem_cons_of_mem _ h)
    by_cases hskip : line = [] ∨ line.head? = some '#'
    · have hc : (!line.isEmpty && line.head? != some '#') = false := by
        rcases hskip with h | h
        · simp [h]
        · simp [h]
      have hp : line_pattern line = none := by simp [line_pattern, hskip]
      simp only [count_loop, hc, Bool.false_eq_true, if_false, List.filterMap_cons, hp,
        List.length_cons]
      rw [ih (n + 1) k hrest]
      congr 2; omega
    · have hc : (!line.isEmpty && line.head? != some '#') = true := by
        push_neg at hskip
        have h1 : line.isEmpty = false := by
          cases line with
          | nil => exact absurd rfl hskip.1
          | cons _ _ => rfl
        have h2 : (line.head? != some '#') = true := by
          simpa using hskip.2
        simp [h1, h2]
      simp only [count_loop, hc, if_true, erase_leading_blanks line hl]
      by_cases hs : strip_blanks line = []
      · have hp : line_pattern line = none := by simp [line_pattern, hs]
        have hd := (strip_blanks_eq_nil line).1 hs
        simp only [hd, List.isEmpty_nil, Bool.not_true, Bool.false_eq_true, if_false,
          List.filterMap_cons, hp, List.length_cons]
        rw [ih (n + 1) k hrest]
        congr 2; omega
      · have hp : line_pattern line = some (strip_blanks line) := by
          simp [line_pattern, hskip, hs]
        have hd : line.dropWhile is_blank ≠ [] := fun h => hs ((strip_blanks_eq_nil line).2 h)
        have he : (!(line.dropWhile is_blank).isEmpty) = true := by
          cases h : line.dropWhile is_blank with
          | nil => exact absurd h hd
          | cons _ _ => rfl
        simp only [he, if_true, List.filterMap_cons, hp, List.length_cons]
        rw [ih (n + 1) (k + 1) hrest]
        congr 2 <;> omega

/-! ## The generator -/

theorem header_names_eq (templates : List Str) :
    ∀ i, header_names (i + templates.length) i templates
      = List.intercalate (str ", ") templates := by
  induction templates with
  | nil => intro i; simp [header_names, List.intercalate]
  | cons t ts ih =>
    intro i
    have h := ih (i + 1)
    have e : i + (t :: ts).length = i + 1 + ts.length := by simp; omega
    rw [e, header_names, h]
    cases ts with
    | nil => simp [List.intercalate]
    | cons b bs =>
      have : i < i + 1 + (b :: bs).length - 1 := by simp only [List.length_cons]; omega
      rw [if_pos this]
      simp [List.intercalate]

theorem endl_eq : endl = str "\n" := by decide

theorem line_pattern_some (line p : Str) (h : line_pattern line = some p) :
    line ≠ [] ∧ line.head? ≠ some '#' ∧ p = strip_blanks line ∧ p ≠ [] := by
  unfold line_pattern at h
  split_ifs at h with h1 h2
  push_neg at h1
  simp only [Option.some.injEq] at h
  exact ⟨h1.1, h1.2, h.symm, h ▸ h2⟩

theorem line_pattern_eq (line : Str) :
    line_pattern line
      = if line ≠ [] ∧ line.head? ≠ some '#' ∧ strip_blanks line ≠ [] then
          some (strip_blanks line)
        else none := by
  unfold line_pattern
  by_cases h1 : line = [] ∨ line.head? = some '#'
  · have : ¬ (line ≠ [] ∧ line.head? ≠ some '#' ∧ strip_blanks line ≠ []) := by
      rintro ⟨a, b, _⟩; rcases h1 with h | h
      · exact a h
      · exact b h
    rw [if_pos h1, if_neg this]
  · push_neg at h1
    by_cases h2 : strip_blanks line = []
    · have : ¬ (line ≠ [] ∧ line.head? ≠ some '#' ∧ strip_blanks line ≠ []) := by
        rintro ⟨_, _, c⟩; exact c h2
      rw [if_neg (by push_neg; exact h1), if_pos h2, if_neg this]
    · rw [if_neg (by push_neg; exact h1), if_neg h2, if_pos ⟨h1.1, h1.2, h2⟩]

theorem strip_blanks_of_blank (line : Str) (h : ∀ c ∈ line, c = ' ' ∨ c = '\t') :
    strip_blanks line = [] := by
  rw [strip_blanks_eq_nil, List.dropWhile_eq_nil_iff]
  intro c hc
  rcases h c hc with e | e <;> simp [is_blank, e]

/-- C5: for every content (of a length a `std::string` can have), the extraction loop yields,
in the order of the lines and one per qualifying line, the lines stripped of their leading and
trailing spaces and tabs, a line qualifying when it is non-empty, does not begin with `'#'`
and is not made of spaces and tabs only; every pattern is non-empty, neither begins nor ends
with a space or a tab, and is some line of the content so stripped; and a line made only of
spaces and tabs yields no pattern: the patterns are those of the other lines. -/
theorem extract_patterns_spec (content : Str) (hlen : content.length < npos) :
    ∃ patterns : List Str,
      extract_patterns content = some patterns
        ∧ patterns = (getlines content).filterMap (fun line =>
            if line ≠ [] ∧ line.head? ≠ some '#' ∧ strip_blanks line ≠ [] then
              some (strip_blanks line)
            else none)
        ∧ (∀ p ∈ patterns,
            p ≠ [] ∧ p.head? ≠ some ' ' ∧ p.head? ≠ some '\t'
              ∧ p.getLast? ≠ some ' ' ∧ p.getLast? ≠ some '\t'
              ∧ ∃ line ∈ getlines content, p = strip_blanks line)
        ∧ ∀ (before after : List Str) (line : Str),
            getlines content = before ++ line :: after →
            (∀ c ∈ line, c = ' ' ∨ c = '\t') →
            patterns = (before ++ after).filterMap (fun line =>
              if line ≠ [] ∧ line.head? ≠ some '#' ∧ strip_blanks line ≠ [] then
                some (strip_blanks line)
              else none) := by
  have hfun : line_pattern = (fun line =>
      if line ≠ [] ∧ line.head? ≠ some '#' ∧ strip_blanks line ≠ [] then
        some (strip_blanks line)
      else none) := by
    funext line
    exact line_pattern_eq line
  refine ⟨(getlines content).filterMap line_pattern, extract_patterns_eq content hlen, ?_, ?_, ?_⟩
  · rw [hfun]
  · intro p hp
    obtain ⟨line, hline, hpat⟩ := List.mem_filterMap.1 hp
    obtain ⟨_, _, hstrip, hne⟩ := line_pattern_some line p hpat
    subst hstrip
    refine ⟨hne, ?_, ?_, ?_, ?_, line, hline, rfl⟩
    · intro h; have := strip_blanks_head line ' ' h; simp [is_blank] at this
    · intro h; have := strip_blanks_head line '\t' h; simp [is_blank] at this
    · intro h; have := strip_blanks_last line ' ' h; simp [is_blank] at this
    · intro h; have := strip_blanks_last line '\t' h; simp [is_blank] at this
  · intro before after line hsplit hblank
    have hnone : line_pattern line = none := by
      simp [line_pattern, strip_blanks_of_blank line hblank]
    rw [← hfun, hsplit, List.filterMap_append, List.filterMap_cons, hnone,
      List.filterMap_append]

/-- Witness of C5: a comment, an empty line, `*.log` and an indented `build/` with trailing
spaces yield exactly `*.log` then `build/`. -/
theorem extract_patterns_spec_witness :
    (str "# comment\n\n*.log\n  build/  \n").length < npos
      ∧ extract_patterns (str "# comment\n\n*.log\n  build/  \n")
          = some [str "*.log", str "build/"]
      ∧ ∃ patterns : List Str,
          extract_patterns (str "# comment\n\n*.log\n  build/  \n") = some patterns
            ∧ ∀ p ∈ patterns, p ≠ [] :=
  ⟨by decide, by decide,
    (extract_patterns_spec (str "# comment\n\n*.log\n  build/  \n") (by decide)).imp
      (fun _ h => ⟨h.1, fun p hp => (h.2.2.1 p hp).1⟩)⟩

/-- C6 (as the code has it): a line counts as a pattern, in the extraction loop and in the
pattern count of the counting loop alike, exactly when as read (before any trimming) it is
non-empty and does not begin with `'#'`, and it is non-empty once its leading and trailing
spaces and tabs are stripped. The line count is the number of lines, the pattern count the
number of such lines and of extracted patterns; the extracted patterns are exactly these
lines, stripped, one per line and in line order, so a text is a pattern exactly when it is
such a line stripped. The `'#'` test is made on the line as read: a comment line that is
indented is a pattern, extracted without its indentation and beginning with `'#'`, while a
line that begins with `'#'` contributes nothing. -/
theorem pattern_lines_spec (content : Str) (hlen : content.length < npos) :
    ∃ (patterns : List Str) (lines count : Nat),
      extract_patterns content = some patterns
        ∧ count_lines content = some (lines, count)
        ∧ lines = (getlines content).length
        ∧ count = ((getlines content).filter (fun line =>
            line ≠ [] ∧ line.head? ≠ some '#' ∧ strip_blanks line ≠ [])).length
        ∧ patterns.length = count
        ∧ patterns = (getlines content).filterMap (fun line =>
            if line ≠ [] ∧ line.head? ≠ some '#' ∧ strip_blanks line ≠ [] then
              some (strip_blanks line)
            else none)
        ∧ (∀ p, p ∈ patterns ↔ ∃ line ∈ getlines content,
            line ≠ [] ∧ line.head? ≠ some '#' ∧ p = strip_blanks line ∧ p ≠ [])
        ∧ (∀ line ∈ getlines content, line.head? ≠ some '#' →
            (strip_blanks line).head? = some '#' → strip_blanks line ∈ patterns)
        ∧ ∀ (before after : List Str) (line : Str),
            getlines content = before ++ line :: after →
            line.head? = some '#' →
            patterns = (before ++ after).filterMap (fun line =>
              if line ≠ [] ∧ line.head? ≠ some '#' ∧ strip_blanks line ≠ [] then
                some (strip_blanks line)
              else none) := by
  have hl : ∀ l ∈ getlines content, l.length < npos := by
    intro l h
    have := getlines_length_le content l h
    omega
  have hfun : line_pattern = (fun line =>
      if line ≠ [] ∧ line.head? ≠ some '#' ∧ strip_blanks line ≠ [] then
        some (strip_blanks line)
      else none) := by
    funext line
    exact line_pattern_eq line
  have hcount : ∀ ls : List Str, (ls.filterMap line_pattern).length
      = (ls.filter (fun line =>
          line ≠ [] ∧ line.head? ≠ some '#' ∧ strip_blanks line ≠ [])).length := by
    intro ls
    induction ls with
    | nil => rfl
    | cons x xs ih =>
      by_cases hx : x ≠ [] ∧ x.head? ≠ some '#' ∧ strip_blanks x ≠ []
      · simp only [List.filterMap_cons, line_pattern_eq x, if_pos hx, List.length_cons, ih,
          List.filter_cons, decide_eq_true hx, if_true]
      · simp only [List.filterMap_cons, line_pattern_eq x, if_neg hx, ih,
          List.filter_cons, decide_eq_false hx, Bool.false_eq_true, if_false]
  have hmem : ∀ p, p ∈ (getlines content).filterMap line_pattern ↔ ∃ line ∈ getlines content,
      line ≠ [] ∧ line.head? ≠ some '#' ∧ p = strip_blanks line ∧ p ≠ [] := by
    intro p
    constructor
    · intro hp
      obtain ⟨line, hline, hpat⟩ := List.mem_filterMap.1 hp
      exact ⟨line, hline, line_pattern_some line p hpat⟩
    · rintro ⟨line, hline, h1, h2, h3, h4⟩
      refine List.mem_filterMap.2 ⟨line, hline, ?_⟩
      rw [line_pattern_eq, if_pos ⟨h1, h2, h3 ▸ h4⟩, h3]
  refine ⟨(getlines content).filterMap line_pattern, (getlines content).length,
    ((getlines content).filterMap line_pattern).length,
    extract_patterns_eq content hlen, ?_, rfl, hcount _, rfl, ?_, hmem, ?_, ?_⟩
  · rw [count_lines, count_loop_eq _ 0 0 hl]
    simp
  · rw [hfun]
  · intro line hline hhead hstrip
    have hs : strip_blanks line ≠ [] := by
      intro h; rw [h] at hstrip; simp at hstrip
    have hne : line ≠ [] := by
      intro h; rw [h] at hs; exact hs rfl
    exact (hmem _).2 ⟨line, hline, hne, hhead, rfl, hs⟩
  · intro before after line hsplit hhead
    have hnone : line_pattern line = none := by
      simp [line_pattern, hhead]
    rw [← hfun, hsplit, List.filterMap_append, List.filterMap_cons, hnone,
      List.filterMap_append]

/-- Witness of C6: a padded `x`, an indented comment, a comment and a line of blanks; the
patterns are `x` and `# note`, in this order and once each. -/
theorem pattern_lines_spec_witness :
    (str " \t x \t\n  # note\n# top\n\t\n").length < npos
      ∧ count_lines (str " \t x \t\n  # note\n# top\n\t\n") = some (4, 2)
      ∧ ∃ (patterns : List Str) (lines count : Nat),
          extract_patterns (str " \t x \t\n  # note\n# top\n\t\n") = some patterns
            ∧ count_lines (str " \t x \t\n  # note\n# top\n\t\n") = some (lines, count)
            ∧ patterns.length = count
            ∧ patterns = [str "x", str "# note"] :=
  ⟨by decide, by decide,
    (pattern_lines_spec (str " \t x \t\n  # note\n# top\n\t\n") (by decide)).imp
      (fun _ h => h.imp (fun _ h => h.imp (fun _ h =>
        ⟨h.1, h.2.1, h.2.2.2.2.1, h.2.2.2.2.2.1.trans (by decide)⟩)))⟩

/-- Counterexample to C6 as stated: the indented comment line `  # note` is a pattern, it
is extracted as `# note`, which begins with the comment marker, and it is counted. -/
theorem indented_comment_is_pattern :
    extract_patterns (str "  # note\n") = some [str "# note"]
      ∧ (str "# note").head? = some '#'
      ∧ strip_blanks (str "  # note") = str "# note"
      ∧ count_lines (str "  # note\n") = some (1, 1) := by
  decide

theorem getlines_terminated (c : Str) (hne : c ≠ []) :
    getlines (c ++ (if c.getLast? = some '\n' then [] else str "\n") ++ str "\n")
      = getlines c ++ [[]] := by
  have e : str "\n" = ['\n'] := by decide
  by_cases hlast : c.getLast? = some '\n'
  · obtain ⟨d, hd⟩ := List.getLast?_eq_some_iff.1 hlast
    rw [if_pos hlast, List.append_nil, e, hd, List.append_assoc]
    rw [show (['\n'] ++ ['\n'] : Str) = '\n' :: ['\n'] from rfl, getlines_append_newline]
    simp [getlines]
  · rw [if_neg hlast, e, List.append_assoc]
    rw [show (['\n'] ++ ['\n'] : Str) = '\n' :: ['\n'] from rfl, getlines_append_newline,
      getlines_snoc_newline c hne hlast]
    simp [getlines]

/-! ## Sorting -/

theorem sort_insert_perm {α : Type} (less : α → α → Bool) (x : α) (l : List α) :
    (sort_insert less x l).Perm (x :: l) := by
  induction l with
  | nil => exact List.Perm.refl _
  | cons y ys ih =>
    simp only [sort_insert]
    split_ifs
    · exact List.Perm.refl _
    · exact (List.Perm.cons y ih).trans (List.Perm.swap x y ys)

theorem sort_perm {α : Type} (less : α → α → Bool) (l : List α) : (sort less l).Perm l := by
  induction l with
  | nil => exact List.Perm.refl _
  | cons x xs ih =>
    simp only [sort]
    exact (sort_insert_perm less x _).trans (List.Perm.cons x ih)

/-! ## Conflict analysis -/

theorem scan_entries_nodes (base_path : Root) (P : Node → Prop)
    (hP : ∀ f, P (base_path.node f)) :
    ∀ (entries : List Str) (templates : List (Str × TemplateInfo)),
      (∀ kv ∈ templates, P kv.2.path.node) →
      ∀ kv ∈ scan_entries base_path entries templates, P kv.2.path.node := by
  intro entries
  induction entries with
  | nil => intro templates h; exact h
  | cons f rest ih =>
    intro templates h
    simp only [scan_entries]
    split_ifs
    · exact ih templates h
    · exact ih templates h
    · apply ih
      intro kv hkv
      rcases List.mem_append.1 hkv with h1 | h1
      · exact h kv h1
      · simp only [List.mem_singleton] at h1
        rw [h1]; exact hP f
    · exact ih templates h

theorem scan_roots_nodes (P : Node → Prop) :
    ∀ (template_paths : List Root) (templates : List (Str × TemplateInfo)),
      (∀ r ∈ template_paths, ∀ f, P (r.node f)) →
      (∀ kv ∈ templates, P kv.2.path.node) →
      ∀ kv ∈ scan_roots template_paths templates, P kv.2.path.node := by
  intro template_paths
  induction template_paths with
  | nil => intro templates _ h; exact h
  | cons r rest ih =>
    intro templates hr h
    simp only [scan_roots]
    have hrest : ∀ r ∈ rest, ∀ f, P (r.node f) := fun q hq => hr q (List.mem_cons_of_mem _ hq)
    split_ifs
    · exact ih templates hrest h
    · exact ih _ hrest
        (scan_entries_nodes r P (hr r (List.mem_cons_self _ _)) r.entries templates h)

theorem scan_templates_nodes (P : Node → Prop) (template_paths : List Root)
    (hP : ∀ r ∈ template_paths, ∀ f, P (r.node f)) :
    ∀ t ∈ scan_templates template_paths, P t.path.node := by
  intro t ht
  simp only [scan_templates] at ht
  have hmem := (sort_perm _ _).mem_iff.1 ht
  obtain ⟨kv, hkv, rfl⟩ := List.mem_map.1 hmem
  exact scan_roots_nodes P template_paths [] hP (by simp) kv hkv

theorem read_template_content_length (p : FsPath) :
    (read_template_content p).length ≤ p.node.content.length := by
  unfold read_template_content
  split_ifs <;> simp

theorem template_patterns_fit (template_paths : List Root)
    (hfit : ∀ r ∈ template_paths, ∀ f, (r.node f).content.length < npos) (name : Str)
    (it : TemplateInfo)
    (hfind : (scan_templates template_paths).find? (fun t => t.name == name) = some it) :
    (read_template_content it.path).length < npos := by
  have hmem := List.mem_of_find?_eq_some hfind
  have := scan_templates_nodes (fun n => n.content.length < npos) template_paths hfit it hmem
  have := read_template_content_length it.path
  omega

/-- The sources the map holds for a key: none when the key is absent. -/
theorem push_source_find (m : List (Str × List Str)) (line name key : Str) :
    ((push_source m line name).find? (fun kv => kv.1 = key)).map (fun kv => kv.2)
      = if key = line then
          some (((m.find? (fun kv => kv.1 = line)).map (fun kv => kv.2)).getD [] ++ [name])
        else (m.find? (fun kv => kv.1 = key)).map (fun kv => kv.2) := by
  induction m with
  | nil =>
    by_cases h : key = line
    · simp [push_source, h]
    · have h2 : ¬ line = key := fun e => h e.symm
      simp [push_source, h, h2]
  | cons kv rest ih =>
    obtain ⟨k, v⟩ := kv
    by_cases hk : k = line
    · by_cases h : key = line
      · simp [push_source, hk, h]
      · have h2 : ¬ line = key := fun e => h e.symm
        simp [push_source, hk, h, h2]
    · by_cases h : key = line
      · have hk2 : ¬ k = key := by rw [h]; exact hk
        simp only [push_source, if_neg hk, List.find?_cons, decide_eq_false hk2, h,
          decide_eq_false hk, if_true]
        rw [h] at ih; simpa using ih
      · by_cases hkk : k = key
        · simp [push_source, hk, hkk, h]
        · simp only [push_source, if_neg hk, List.find?_cons, decide_eq_false hkk, if_neg h]
          simpa [h] using ih

theorem push_source_keys (m : List (Str × List Str)) (line name : Str) :
    (push_source m line name).map Prod.fst
      = if line ∈ m.map Prod.fst then m.map Prod.fst else m.map Prod.fst ++ [line] := by
  induction m with
  | nil => simp [push_source]
  | cons kv rest ih =>
    obtain ⟨k, v⟩ := kv
    by_cases hk : k = line
    · simp [push_source, hk]
    · have hk2 : ¬ line = k := fun e => hk e.symm
      simp only [push_source, if_neg hk, List.map_cons, ih, List.mem_cons, hk2, false_or]
      split_ifs <;> simp

theorem push_source_nodup (m : List (Str × List Str)) (line name : Str)
    (h : (m.map Prod.fst).Nodup) : ((push_source m line name).map Prod.fst).Nodup := by
  rw [push_source_keys]
  split_ifs with hmem
  · exact h
  · rw [List.nodup_append]
    refine ⟨h, by simp, ?_⟩
    intro a ha hb
    simp only [List.mem_singleton] at hb
    exact hmem (hb ▸ ha)

theorem push_source_nonempty (m : List (Str × List Str)) (line name : Str)
    (h : ∀ kv ∈ m, kv.2 ≠ []) : ∀ kv ∈ push_source m line name, kv.2 ≠ [] := by
  induction m with
  | nil => intro kv hkv; simp [push_source] at hkv; simp [hkv]
  | cons x rest ih =>
    obtain ⟨k, v⟩ := x
    intro kv hkv
    have hrest : ∀ kv ∈ rest, kv.2 ≠ [] := fun q hq => h q (List.mem_cons_of_mem _ hq)
    simp only [push_source] at hkv
    split_ifs at hkv
    · rcases List.mem_cons.1 hkv with e | e
      · simp [e]
      · exact hrest kv e
    · rcases List.mem_cons.1 hkv with e | e
      · rw [e]; exact h (k, v) (List.mem_cons_self _ _)
      · exact ih hrest kv e

/-- The state of the map after a run of pushes, read key by key. -/
theorem foldl_push_source (events : List (Str × Str)) :
    ∀ m : List (Str × List Str), (m.map Prod.fst).Nodup → (∀ kv ∈ m, kv.2 ≠ []) →
      ((events.foldl (fun m e => push_source m e.1 e.2) m).map Prod.fst).Nodup
        ∧ (∀ kv ∈ events.foldl (fun m e => push_source m e.1 e.2) m, kv.2 ≠ [])
        ∧ ∀ key, (((events.foldl (fun m e => push_source m e.1 e.2) m).find?
              (fun kv => kv.1 = key)).map (fun kv => kv.2)).getD []
            = ((m.find? (fun kv => kv.1 = key)).map (fun kv => kv.2)).getD []
              ++ (events.filter (fun e => e.1 = key)).map Prod.snd := by
  induction events with
  | nil => intro m h1 h2; exact ⟨h1, h2, fun key => by simp⟩
  | cons e rest ih =>
    intro m h1 h2
    obtain ⟨line, name⟩ := e
    simp only [List.foldl_cons]
    obtain ⟨a, b, c⟩ := ih (push_source m line name) (push_source_nodup m line name h1)
      (push_source_nonempty m line name h2)
    refine ⟨a, b, ?_⟩
    intro key
    rw [c key, push_source_find]
    by_cases hk : key = line
    · have : decide (line = key) = true := by simp [hk]
      simp [hk]
    · have hk2 : ¬ line = key := fun e => hk e.symm
      simp [hk, hk2]

theorem mem_iff_find_of_nodup (m : List (Str × List Str)) (h : (m.map Prod.fst).Nodup)
    (key : Str) (v : List Str) :
    (key, v) ∈ m ↔ m.find? (fun kv => kv.1 = key) = some (key, v) := by
  induction m with
  | nil => simp
  | cons x rest ih =>
    obtain ⟨k, w⟩ := x
    simp only [List.map_cons, List.nodup_cons] at h
    by_cases hk : k = key
    · subst hk
      simp only [List.mem_cons, Prod.mk.injEq, true_and, List.find?_cons, decide_True,
        Option.some.injEq]
      constructor
      · rintro (e | e)
        · rw [e]
        · exact absurd (List.mem_map_of_mem Prod.fst e) h.1
      · intro e; left; exact e.symm
    · have hk2 : ¬ key = k := fun e => hk e.symm
      simp only [List.mem_cons, Prod.mk.injEq, hk2, false_and, false_or, List.find?_cons,
        decide_eq_false hk]
      exact ih h.2

theorem template_patterns_none (template_paths : List Root) (name : Str)
    (h : (scan_templates template_paths).find? (fun t => t.name == name) = none) :
    template_patterns template_paths name = [] := by
  simp [template_patterns, h]

theorem template_patterns_some (template_paths : List Root)
    (hfit : ∀ r ∈ template_paths, ∀ f, (r.node f).content.length < npos) (name : Str)
    (it : TemplateInfo)
    (h : (scan_templates template_paths).find? (fun t => t.name == name) = some it) :
    template_patterns template_paths name
      = (getlines (read_template_content it.path)).filterMap line_pattern := by
  have hlen := template_patterns_fit template_paths hfit name it h
  simp [template_patterns, h, extract_patterns_eq _ hlen]

theorem collect_sources_eq (template_paths : List Root)
    (hfit : ∀ r ∈ template_paths, ∀ f, (r.node f).content.length < npos) :
    ∀ (names : List Str) (m : List (Str × List Str)),
      collect_sources template_paths names m
        = some ((names.flatMap (fun n =>
              (template_patterns template_paths n).map (fun p => (p, n)))).foldl
            (fun m e => push_source m e.1 e.2) m) := by
  intro names
  induction names with
  | nil => intro m; rfl
  | cons name rest ih =>
    intro m
    cases hfind : (scan_templates template_paths).find? (fun t => t.name == name) with
    | none =>
      simp only [collect_sources, hfind, List.flatMap_cons,
        template_patterns_none template_paths name hfind, List.map_nil, List.nil_append]
      exact ih m
    | some it =>
      have hlen := template_patterns_fit template_paths hfit name it hfind
      have hl : ∀ l ∈ getlines (read_template_content it.path), l.length < npos := by
        intro l h
        have := getlines_length_le _ l h
        omega
      simp only [collect_sources, hfind, pattern_loop_eq _ _ _ hl, List.flatMap_cons,
        template_patterns_some template_paths hfit name it hfind, List.foldl_append,
        List.foldl_map]
      exact ih _

theorem sources_of_name (patterns : List Str) (name key : Str) :
    ((patterns.map (fun p => (p, name))).filter (fun e => e.1 = key)).map Prod.snd
      = List.replicate (patterns.count key) name := by
  induction patterns with
  | nil => rfl
  | cons p ps ih =>
    by_cases h : p = key
    · simp only [List.map_cons, List.filter_cons, decide_eq_true h, if_true, ih]
      rw [h, List.count_cons_self, List.replicate_succ]
    · simp only [List.map_cons, List.filter_cons, decide_eq_false h, Bool.false_eq_true,
        if_false, ih]
      rw [List.count_cons_of_ne (fun e => h e.symm)]

theorem sources_of_names (patterns_of : Str → List Str) (names : List Str) (key : Str) :
    ((names.flatMap (fun n => (patterns_of n).map (fun p => (p, n)))).filter
        (fun e => e.1 = key)).map Prod.snd
      = names.flatMap (fun n => List.replicate ((patterns_of n).count key) n) := by
  induction names with
  | nil => rfl
  | cons n ns ih =>
    simp only [List.flatMap_cons, List.filter_append, List.map_append, ih, sources_of_name]

theorem length_flatMap_replicate (count_of : Str → Nat) (names : List Str) :
    (names.flatMap (fun n => List.replicate (count_of n) n)).length
      = (names.map count_of).sum := by
  induction names with
  | nil => rfl
  | cons n ns ih => simp [List.flatMap_cons, ih]

theorem count_flatMap_replicate (count_of : Str → Nat) (names : List Str) (n : Str) :
    (names.flatMap (fun m => List.replicate (count_of m) m)).count n
      = names.count n * count_of n := by
  induction names with
  | nil => simp
  | cons x xs ih =>
    rw [List.flatMap_cons, List.count_append, ih, List.count_replicate, List.count_cons]
    by_cases hx : x = n
    · subst hx; simp; ring
    · have hx2 : ¬ (x == n) = true := by simpa using hx
      simp [hx, hx2]

/-- The vector `conflicts` entry by entry: the keys are distinct, and a pair is an entry
exactly when its list has at least two elements and holds each requested name once per
occurrence of the pattern among the patterns of that name, in request order. -/
theorem conflicts_eq (template_paths : List Root) (template_names : List Str)
    (hfit : ∀ r ∈ template_paths, ∀ f, (r.node f).content.length < npos) :
    ∃ report : List (Str × List Str),
      conflicts template_paths template_names = some report
        ∧ (report.map Prod.fst).Nodup
        ∧ ∀ (p : Str) (cs : List Str), (p, cs) ∈ report ↔
            (2 ≤ cs.length
              ∧ cs = template_names.flatMap (fun n =>
                  List.replicate ((template_patterns template_paths n).count p) n)) := by
  obtain ⟨hnd, hne, hget⟩ := foldl_push_source
    (template_names.flatMap (fun n =>
      (template_patterns template_paths n).map (fun p => (p, n)))) [] (by simp) (by simp)
  refine ⟨((template_names.flatMap (fun n =>
      (template_patterns template_paths n).map (fun p => (p, n)))).foldl
        (fun m e => push_source m e.1 e.2) []).filter (fun pair => pair.2.length > 1),
    ?_, ?_, ?_⟩
  · simp only [conflicts, collect_sources_eq template_paths hfit]
  · exact hnd.sublist ((List.filter_sublist _).map Prod.fst)
  · intro p cs
    have hg := hget p
    rw [sources_of_names] at hg
    simp only [List.find?_nil, Option.map_none', Option.getD_none, List.nil_append] at hg
    rw [List.mem_filter, mem_iff_find_of_nodup _ hnd]
    constructor
    · rintro ⟨hfind, hlen⟩
      rw [hfind] at hg
      simp only [Option.map_some', Option.getD_some] at hg
      have hlen2 : 1 < cs.length := by simpa using hlen
      exact ⟨hlen2, hg⟩
    · rintro ⟨hlen, hcs⟩
      rw [← hcs] at hg
      cases hfind : List.find? (fun kv => decide (kv.1 = p))
          (List.foldl (fun m e => push_source m e.1 e.2) []
            (template_names.flatMap (fun n =>
              (template_patterns template_paths n).map (fun p => (p, n))))) with
      | none =>
        rw [hfind] at hg
        simp only [Option.map_none', Option.getD_none] at hg
        rw [← hg] at hlen; simp at hlen
      | some kv =>
        rw [hfind] at hg
        simp only [Option.map_some', Option.getD_some] at hg
        have hk := List.find?_some hfind
        simp only [decide_eq_true_eq] at hk
        obtain ⟨k, v⟩ := kv
        simp only at hk hg
        subst hk; subst hg
        exact ⟨rfl, by simpa using hlen⟩

/-- C7: for every list of requested names (the contents of the roots having lengths a
`std::string` can have), the conflict analysis yields a report whose patterns are distinct,
and a pattern is reported with a contributor list exactly when the total number of its
occurrences, counted over the pattern lists of the requested names taken in request order, is
at least 2 and the list holds each requested name once per occurrence of the pattern in that
name's patterns, in request order. A name that does not resolve has no patterns and so
contributes nothing. -/
theorem conflicts_spec (template_paths : List Root) (template_names : List Str)
    (hfit : ∀ r ∈ template_paths, ∀ f, (r.node f).content.length < npos) :
    ∃ report : List (Str × List Str),
      conflicts template_paths template_names = some report
        ∧ (report.map Prod.fst).Nodup
        ∧ ∀ (p : Str) (cs : List Str), (p, cs) ∈ report ↔
            (2 ≤ (template_names.map
                  (fun n => (template_patterns template_paths n).count p)).sum
              ∧ cs = template_names.flatMap (fun n =>
                  List.replicate ((template_patterns template_paths n).count p) n)) := by
  obtain ⟨report, h1, h2, h3⟩ := conflicts_eq template_paths template_names hfit
  refine ⟨report, h1, h2, ?_⟩
  intro p cs
  rw [h3 p cs]
  constructor
  · rintro ⟨hlen, hcs⟩
    refine ⟨?_, hcs⟩
    rw [← length_flatMap_replicate, ← hcs]; exact hlen
  · rintro ⟨hsum, hcs⟩
    refine ⟨?_, hcs⟩
    rw [hcs, length_flatMap_replicate]; exact hsum

/-- Witness of C7: the templates `a` and `b` of `shared_root` both hold `*.log`, and the
report of the request `a, b` is the single entry `*.log` with the contributors `a, b`. -/
theorem conflicts_spec_witness :
    (∀ r ∈ [shared_root], ∀ f, (r.node f).content.length < npos)
      ∧ conflicts [shared_root] [str "a", str "b"] = some [(str "*.log", [str "a", str "b"])]
      ∧ template_patterns [shared_root] (str "a") = [str "*.log", str "build/"]
      ∧ template_patterns [shared_root] (str "b") = [str "*.log"]
      ∧ ∃ report : List (Str × List Str),
          conflicts [shared_root] [str "a", str "b"] = some report
            ∧ (report.map Prod.fst).Nodup :=
  ⟨by
      intro r hr f
      simp only [List.mem_singleton] at hr
      subst hr
      simp only [shared_root]
      split_ifs <;> decide,
    by decide, by decide, by decide,
    (conflicts_spec [shared_root] [str "a", str "b"] (by
      intro r hr f
      simp only [List.mem_singleton] at hr
      subst hr
      simp only [shared_root]
      split_ifs <;> decide)).imp (fun _ h => ⟨h.1, h.2.1⟩)⟩

/-- C8 (as the code has it): every reported pattern has at least two contributors, one per
occurrence of the pattern; each contributor is a requested name whose patterns hold the
pattern, and the same name stands in the list once for each time its template holds the
pattern, so the contributors need not be different templates. -/
theorem conflicts_contributors (template_paths : List Root) (template_names : List Str)
    (hfit : ∀ r ∈ template_paths, ∀ f, (r.node f).content.length < npos) :
    ∃ report : List (Str × List Str),
      conflicts template_paths template_names = some report
        ∧ ∀ (p : Str) (cs : List Str), (p, cs) ∈ report →
            2 ≤ cs.length
              ∧ (∀ n ∈ cs, n ∈ template_names ∧ p ∈ template_patterns template_paths n)
              ∧ ∀ n, cs.count n
                  = template_names.count n * (template_patterns template_paths n).count p := by
  obtain ⟨report, h1, _, h3⟩ := conflicts_eq template_paths template_names hfit
  refine ⟨report, h1, ?_⟩
  intro p cs hmem
  obtain ⟨hlen, hcs⟩ := (h3 p cs).1 hmem
  refine ⟨hlen, ?_, ?_⟩
  · intro n hn
    rw [hcs, List.mem_flatMap] at hn
    obtain ⟨n', hn', hrep⟩ := hn
    obtain ⟨hcount, heq⟩ := List.mem_replicate.1 hrep
    subst heq
    exact ⟨hn', List.count_pos_iff.1 (Nat.pos_of_ne_zero hcount)⟩
  · intro n
    rw [hcs, count_flatMap_replicate]

/-- Witness of C8 (as the code has it): on `repeated_root` the pattern `*.log` is reported
with two contributors. -/
theorem conflicts_contributors_witness :
    (∀ r ∈ [repeated_root], ∀ f, (r.node f).content.length < npos)
      ∧ ∃ report : List (Str × List Str),
          conflicts [repeated_root] [str "a", str "b"] = some report
            ∧ ∀ (p : Str) (cs : List Str), (p, cs) ∈ report → 2 ≤ cs.length :=
  ⟨by
      intro r hr f
      simp only [List.mem_singleton] at hr
      subst hr
      simp only [repeated_root]
      split_ifs <;> decide,
    (conflicts_contributors [repeated_root] [str "a", str "b"] (by
      intro r hr f
      simp only [List.mem_singleton] at hr
      subst hr
      simp only [repeated_root]
      split_ifs <;> decide)).imp (fun _ h => ⟨h.1, fun p cs hm => (h.2 p cs hm).1⟩)⟩

/-- Counterexample to C8 as stated: the template `a` of `repeated_root` holds `*.log`
twice and `b` does not hold it; the request `a, b` reports `*.log` with the contributors
`a, a`, which are not two different template names. -/
theorem conflicts_same_template_twice :
    conflicts [repeated_root] [str "a", str "b"] = some [(str "*.log", [str "a", str "a"])]
      ∧ template_patterns [repeated_root] (str "b") = [str "*.tmp"]
      ∧ ¬ ∃ x ∈ [str "a", str "a"], ∃ y ∈ [str "a", str "a"], x ≠ y := by
  decide

theorem char_eq_of_toNat (a b : Char) (h : a.toNat = b.toNat) : a = b := by
  have e := Char.ofNat_toNat a
  rw [h, Char.ofNat_toNat] at e
  exact e.symm

theorem str_lt_asymm : ∀ a b : Str, str_lt a b = true → str_lt b a = false := by
  intro a
  induction a with
  | nil => intro b _; cases b <;> rfl
  | cons x xs ih =>
    intro b h
    cases b with
    | nil => simp [str_lt] at h
    | cons y ys =>
      simp only [str_lt] at h ⊢
      split_ifs at h ⊢
      all_goals first | omega | rfl | exact ih ys h

theorem str_lt_le_trans : ∀ a b c : Str,
    str_lt b a = false → str_lt c b = false → str_lt c a = false := by
  intro a
  induction a with
  | nil => intro b c _ _; cases c <;> rfl
  | cons x xs ih =>
    intro b c h1 h2
    cases b with
    | nil => simp [str_lt] at h1
    | cons y ys =>
      cases c with
      | nil => simp [str_lt] at h2
      | cons z zs =>
        simp only [str_lt] at h1 h2 ⊢
        split_ifs at h1 h2 ⊢
        all_goals first | omega | rfl | exact ih ys zs h1 h2

theorem str_lt_trichotomy : ∀ a b : Str, str_lt a b = false → str_lt b a = false → a = b := by
  intro a
  induction a with
  | nil =>
    intro b h1 _
    cases b with
    | nil => rfl
    | cons y ys => simp [str_lt] at h1
  | cons x xs ih =>
    intro b h1 h2
    cases b with
    | nil => simp [str_lt] at h2
    | cons y ys =>
      simp only [str_lt] at h1 h2
      split_ifs at h1 h2
      · have hxy : x = y := char_eq_of_toNat x y (by omega)
        rw [hxy, ih ys h1 h2]

theorem sort_insert_sorted {α : Type} (less : α → α → Bool)
    (hasymm : ∀ a b, less a b = true → less b a = false)
    (htrans : ∀ a b c, less b a = false → less c b = false → less c a = false)
    (x : α) (l : List α) (h : l.Pairwise (fun a b => less b a = false)) :
    (sort_insert less x l).Pairwise (fun a b => less b a = false) := by
  induction l with
  | nil => simp [sort_insert]
  | cons y ys ih =>
    rw [List.pairwise_cons] at h
    simp only [sort_insert]
    split_ifs with hxy
    · refine List.pairwise_cons.2 ⟨?_, List.pairwise_cons.2 h⟩
      intro z hz
      rcases List.mem_cons.1 hz with e | e
      · rw [e]; exact hasymm x y hxy
      · exact htrans x y z (hasymm x y hxy) (h.1 z e)
    · refine List.pairwise_cons.2 ⟨?_, ih h.2⟩
      intro z hz
      rcases List.mem_cons.1 ((sort_insert_perm less x ys).mem_iff.1 hz) with e | e
      · rw [e]; simpa using hxy
      · exact h.1 z e

theorem sort_sorted {α : Type} (less : α → α → Bool)
    (hasymm : ∀ a b, less a b = true → less b a = false)
    (htrans : ∀ a b c, less b a = false → less c b = false → less c a = false)
    (l : List α) : (sort less l).Pairwise (fun a b => less b a = false) := by
  induction l with
  | nil => simp [sort]
  | cons x xs ih => exact sort_insert_sorted less hasymm htrans x _ ih

theorem sorted_unique {α : Type} (less : α → α → Bool)
    (htri : ∀ a b, less a b = false → less b a = false → a = b)
    (l₁ l₂ : List α) (hperm : l₁.Perm l₂)
    (h₁ : l₁.Pairwise (fun a b => less b a = false))
    (h₂ : l₂.Pairwise (fun a b => less b a = false)) : l₁ = l₂ :=
  @List.eq_of_perm_of_sorted α (fun a b => less b a = false)
    ⟨fun a b hab hba => htri a b hba hab⟩ l₁ l₂ hperm h₁ h₂

theorem str_lt_iff_lex : ∀ a b : Str,
    str_lt a b = true ↔ List.Lex (fun x y : Char => x.toNat < y.toNat) a b := by
  intro a
  induction a with
  | nil =>
    intro b
    cases b with
    | nil => simp [str_lt]
    | cons y ys => simp [str_lt, List.Lex.nil]
  | cons x xs ih =>
    intro b
    cases b with
    | nil => simp [str_lt]
    | cons y ys =>
      simp only [str_lt]
      split_ifs with h1 h2
      · simp only [true_iff]
        exact List.Lex.rel h1
      · simp only [Bool.false_eq_true, false_iff]
        intro h
        cases h with
        | cons h => omega
        | rel h => omega
      · have hxy : x = y := char_eq_of_toNat x y (by omega)
        subst hxy
        rw [ih ys]
        constructor
        · intro h; exact List.Lex.cons h
        · intro h
          cases h with
          | cons h => exact h
          | rel h => omega

/-! ## Ordering -/

theorem order_less_eq (a b : Str) :
    order_less a b
      = if ([str "global", str "macos", str "windows", str "linux"].contains a
            != [str "global", str "macos", str "windows", str "linux"].contains b) then
          [str "global", str "macos", str "windows", str "linux"].contains a
        else str_lt a b := rfl

theorem order_less_asymm : ∀ a b : Str, order_less a b = true → order_less b a = false := by
  intro a b
  simp only [order_less_eq]
  cases [str "global", str "macos", str "windows", str "linux"].contains a <;>
    cases [str "global", str "macos", str "windows", str "linux"].contains b <;>
    simp <;> exact str_lt_asymm a b

theorem order_less_le_trans : ∀ a b c : Str,
    order_less b a = false → order_less c b = false → order_less c a = false := by
  intro a b c
  simp only [order_less_eq]
  cases [str "global", str "macos", str "windows", str "linux"].contains a <;>
    cases [str "global", str "macos", str "windows", str "linux"].contains b <;>
    cases [str "global", str "macos", str "windows", str "linux"].contains c <;>
    simp <;> exact str_lt_le_trans a b c

theorem order_less_trichotomy : ∀ a b : Str,
    order_less a b = false → order_less b a = false → a = b := by
  intro a b
  simp only [order_less_eq]
  cases [str "global", str "macos", str "windows", str "linux"].contains a <;>
    cases [str "global", str "macos", str "windows", str "linux"].contains b <;>
    simp <;> exact str_lt_trichotomy a b

/-- C9: for every list of names, duplicates allowed, `optimize_template_order` yields the
names of the base set `global, macos, windows, linux` in ascending byte-wise lexicographic
order followed by the remaining names in ascending order; the result is a permutation of the
input and is the same for every reordering of the input. -/
theorem optimize_template_order_spec (template_names : List Str) :
    (∃ base others : List Str,
        optimize_template_order template_names = base ++ others
          ∧ base.Perm (template_names.filter (fun n =>
              n ∈ [str "global", str "macos", str "windows", str "linux"]))
          ∧ others.Perm (template_names.filter (fun n =>
              n ∉ [str "global", str "macos", str "windows", str "linux"]))
          ∧ base.Pairwise (fun a b => str_lt b a = false)
          ∧ others.Pairwise (fun a b => str_lt b a = false))
      ∧ (optimize_template_order template_names).Perm template_names
      ∧ ∀ reordered : List Str, reordered.Perm template_names →
          optimize_template_order reordered = optimize_template_order template_names := by
  refine ⟨⟨sort str_lt (template_names.filter (fun n =>
      n ∈ [str "global", str "macos", str "windows", str "linux"])),
    sort str_lt (template_names.filter (fun n =>
      n ∉ [str "global", str "macos", str "windows", str "linux"])),
    ?_, sort_perm _ _, sort_perm _ _,
    sort_sorted str_lt str_lt_asymm str_lt_le_trans _,
    sort_sorted str_lt str_lt_asymm str_lt_le_trans _⟩, sort_perm _ _, ?_⟩
  · apply sorted_unique order_less order_less_trichotomy
    · refine (sort_perm _ _).trans (List.Perm.trans ?_
        ((sort_perm _ _).symm.append (sort_perm _ _).symm))
      have := (List.filter_append_perm (fun n : Str =>
        decide (n ∈ [str "global", str "macos", str "windows", str "linux"]))
        template_names).symm
      refine this.trans (List.Perm.append_left _ ?_)
      apply List.Perm.of_eq
      congr 1
      funext n
      simp
    · exact sort_sorted order_less order_less_asymm order_less_le_trans _
    · rw [List.pairwise_append]
      refine ⟨?_, ?_, ?_⟩
      · refine (sort_sorted str_lt str_lt_asymm str_lt_le_trans _).imp_of_mem ?_
        intro a b ha hb hab
        have ha' := List.of_mem_filter ((sort_perm _ _).mem_iff.1 ha)
        have hb' := List.of_mem_filter ((sort_perm _ _).mem_iff.1 hb)
        simp only [decide_eq_true_eq] at ha' hb'
        have ea : [str "global", str "macos", str "windows", str "linux"].contains a = true :=
          List.elem_eq_true_of_mem ha'
        have eb : [str "global", str "macos", str "windows", str "linux"].contains b = true :=
          List.elem_eq_true_of_mem hb'
        rw [order_less_eq, ea, eb]
        simpa using hab
      · refine (sort_sorted str_lt str_lt_asymm str_lt_le_trans _).imp_of_mem ?_
        intro a b ha hb hab
        have ha' := List.of_mem_filter ((sort_perm _ _).mem_iff.1 ha)
        have hb' := List.of_mem_filter ((sort_perm _ _).mem_iff.1 hb)
        simp only [decide_eq_true_eq] at ha' hb'
        have ea : [str "global", str "macos", str "windows", str "linux"].contains a = false := by
          rw [← Bool.not_eq_true]; exact fun h => ha' (List.mem_of_elem_eq_true h)
        have eb : [str "global", str "macos", str "windows", str "linux"].contains b = false := by
          rw [← Bool.not_eq_true]; exact fun h => hb' (List.mem_of_elem_eq_true h)
        rw [order_less_eq, ea, eb]
        simpa using hab
      · intro a ha b hb
        have ha' := List.of_mem_filter ((sort_perm _ _).mem_iff.1 ha)
        have hb' := List.of_mem_filter ((sort_perm _ _).mem_iff.1 hb)
        simp only [decide_eq_true_eq] at ha' hb'
        have ea : [str "global", str "macos", str "windows", str "linux"].contains a = true :=
          List.elem_eq_true_of_mem ha'
        have eb : [str "global", str "macos", str "windows", str "linux"].contains b = false := by
          rw [← Bool.not_eq_true]; exact fun h => hb' (List.mem_of_elem_eq_true h)
        rw [order_less_eq, eb, ea]
        simp
  · intro reordered hperm
    apply sorted_unique order_less order_less_trichotomy
    · exact (sort_perm _ _).trans (hperm.trans (sort_perm _ _).symm)
    · exact sort_sorted order_less order_less_asymm order_less_le_trans _
    · exact sort_sorted order_less order_less_asymm order_less_le_trans _

/-- Witness of C9: `zeta, linux, alpha, macos` is reordered to `linux, macos, alpha, zeta`. -/
theorem optimize_template_order_spec_witness :
    optimize_template_order [str "zeta", str "linux", str "alpha", str "macos"]
        = [str "linux", str "macos", str "alpha", str "zeta"]
      ∧ optimize_template_order [str "macos", str "alpha", str "linux", str "zeta"]
        = optimize_template_order [str "zeta", str "linux", str "alpha", str "macos"] :=
  ⟨by decide,
    (optimize_template_order_spec [str "zeta", str "linux", str "alpha", str "macos"]).2.2
      [str "macos", str "alpha", str "linux", str "zeta"] (by decide)⟩

/-! ## Descriptions -/

theorem find_from_absent (needle : Str) :
    ∀ (s : Str) (i : Nat), ¬ needle <:+: s → find_from needle i s = npos := by
  intro s
  induction s with
  | nil =>
    intro i h
    have hne : needle ≠ [] := by
      intro e; rw [e] at h; exact h List.nil_infix
    cases needle with
    | nil => exact absurd rfl hne
    | cons _ _ => rfl
  | cons c cs ih =>
    intro i h
    rw [List.infix_cons_iff] at h
    push_neg at h
    have hp : needle.isPrefixOf (c :: cs) = false := by
      rw [← Bool.not_eq_true, List.isPrefixOf_iff_prefix]; exact h.1
    simp only [find_from, hp, Bool.false_eq_true, if_false]
    exact ih (i + 1) h.2

theorem find_from_present (needle : Str) :
    ∀ (s : Str) (i : Nat), needle <:+: s → find_from needle i s ≤ i + s.length := by
  intro s
  induction s with
  | nil =>
    intro i h
    have : needle = [] := List.eq_nil_of_infix_nil h
    simp [find_from, this]
  | cons c cs ih =>
    intro i h
    by_cases hp : needle.isPrefixOf (c :: cs) = true
    · simp [find_from, hp]
    · have hp2 : ¬ needle <+: c :: cs := fun e => hp (List.isPrefixOf_iff_prefix.2 e)
      rw [List.infix_cons_iff] at h
      have hin : needle <:+: cs := h.resolve_left hp2
      have := ih (i + 1) hin
      have hp3 : needle.isPrefixOf (c :: cs) = false := by
        rw [← Bool.not_eq_true]; exact hp
      simp only [find_from, hp3, Bool.false_eq_true, if_false, List.length_cons]
      omega

theorem find_eq_npos_iff (s needle : Str) (hlen : s.length < npos) :
    find s needle = npos ↔ ¬ needle <:+: s := by
  constructor
  · intro h hin
    have := find_from_present needle s 0 hin
    rw [find] at h
    omega
  · intro h
    exact find_from_absent needle s 0 h

theorem substr_from (s : Str) (pos : Nat) (hlen : s.length < npos) :
    substr s pos npos = s.drop pos := by
  rw [substr, List.take_of_length_le]
  rw [List.length_drop]; omega

theorem qualifies_iff (desc : Str) (hlen : desc.length < npos) :
    (!desc.isEmpty && desc != str "gitignore" && find desc (str "Generated") == npos) = true
      ↔ qualifies desc := by
  have hf := find_eq_npos_iff desc (str "Generated") hlen
  simp only [Bool.and_eq_true, Bool.not_eq_true', bne_iff_ne, ne_eq, beq_iff_eq, hf, qualifies]
  constructor
  · rintro ⟨⟨h1, h2⟩, h3⟩
    refine ⟨?_, h2, h3⟩
    intro e; rw [e] at h1; simp at h1
  · rintro ⟨h1, h2, h3⟩
    refine ⟨⟨?_, h2⟩, h3⟩
    cases desc with
    | nil => exact absurd rfl h1
    | cons _ _ => rfl

/-- One turn of the scan loop on a comment line. -/
theorem description_lines_comment (line : Str) (rest desc_lines : List Str)
    (hhead : line.head? = some '#') (hlen : line.length < npos) :
    description_lines (line :: rest) desc_lines
      = if qualifies (comment_text line) then
          (if (desc_lines ++ [comment_text line]).length ≥ 2 then
            desc_lines ++ [comment_text line]
          else description_lines rest (desc_lines ++ [comment_text line]))
        else description_lines rest desc_lines := by
  have hne : line.isEmpty = false := by
    cases line with
    | nil => simp at hhead
    | cons _ _ => rfl
  have hh : (line.head? != some '#') = false := by simp [hhead]
  have hd1 : (line.drop 1).length < npos := by rw [List.length_drop]; omega
  have hdesc : (if (!(substr line 1 npos).isEmpty && (substr line 1 npos).head? == some ' ')
        = true then substr (substr line 1 npos) 1 npos else substr line 1 npos)
      = comment_text line := by
    have e2 : line.drop 2 = (line.drop 1).drop 1 := by rw [List.drop_drop]
    rw [substr_from line 1 hlen, substr_from (line.drop 1) 1 hd1, comment_text, e2]
    generalize line.drop 1 = t
    cases t with
    | nil => rfl
    | cons c cs =>
      by_cases hsp : c = ' '
      · simp [hsp]
      · simp [hsp]
  have hclen : (comment_text line).length < npos := by
    rw [comment_text]
    split_ifs <;> rw [List.length_drop] <;> omega
  rw [description_lines]
  simp only [hne, Bool.false_eq_true, if_false, hh, hdesc]
  by_cases hq : qualifies (comment_text line)
  · rw [if_pos ((qualifies_iff _ hclen).2 hq), if_pos hq]
  · rw [if_neg (fun h => hq ((qualifies_iff _ hclen).1 h)), if_neg hq]

/-- The scan loop over a run of comment lines followed by anything. -/
theorem description_lines_comments (rest : List Str) :
    ∀ (comments desc_lines : List Str),
      (∀ line ∈ comments, line.head? = some '#' ∧ line.length < npos) →
      desc_lines.length < 2 →
      description_lines (comments ++ rest) desc_lines
        = if desc_lines.length
              + ((comments.map comment_text).filter (fun t => qualifies t)).length ≥ 2 then
            desc_lines ++ ((comments.map comment_text).filter (fun t => qualifies t)).take
              (2 - desc_lines.length)
          else
            description_lines rest
              (desc_lines ++ (comments.map comment_text).filter (fun t => qualifies t)) := by
  intro comments
  induction comments with
  | nil =>
    intro desc_lines _ hacc
    have : ¬ desc_lines.length ≥ 2 := by omega
    simp [this]
  | cons line cs ih =>
    intro desc_lines hc hacc
    obtain ⟨hhead, hlen⟩ := hc line (List.mem_cons_self _ _)
    have hcs : ∀ l ∈ cs, l.head? = some '#' ∧ l.length < npos :=
      fun l hl => hc l (List.mem_cons_of_mem _ hl)
    rw [List.cons_append, description_lines_comment line _ desc_lines hhead hlen]
    by_cases hq : qualifies (comment_text line)
    · simp only [if_pos hq, List.map_cons, List.filter_cons, decide_eq_true hq, if_true,
        List.length_cons, List.length_append, List.length_nil]
      by_cases h2 : desc_lines.length + 1 ≥ 2
      · have h1 : desc_lines.length = 1 := by omega
        have h3 : desc_lines.length
            + (((cs.map comment_text).filter (fun t => qualifies t)).length + 1) ≥ 2 := by omega
        have h2' : desc_lines.length + (0 + 1) ≥ 2 := by omega
        rw [if_pos h2', if_pos h3, h1]
        simp
      · have h0 : desc_lines.length = 0 := by omega
        have h2' : ¬ desc_lines.length + (0 + 1) ≥ 2 := by omega
        rw [if_neg h2', ih (desc_lines ++ [comment_text line]) hcs (by simp; omega)]
        have hnil : desc_lines = [] := List.length_eq_zero.1 h0
        subst hnil
        simp only [List.nil_append, List.length_singleton, List.length_nil, Nat.zero_add]
        by_cases h4 : 1 + ((cs.map comment_text).filter (fun t => qualifies t)).length ≥ 2
        · have h5 : ((cs.map comment_text).filter (fun t => qualifies t)).length + 1 ≥ 2 := by
            omega
          rw [if_pos h4, if_pos h5]
          simp
        · have h5 : ¬ ((cs.map comment_text).filter (fun t => qualifies t)).length + 1 ≥ 2 := by
            omega
          rw [if_neg h4, if_neg h5]
          simp
    · simp only [if_neg hq, List.map_cons, List.filter_cons, decide_eq_false hq,
        Bool.false_eq_true, if_false]
      exact ih desc_lines hcs hacc

/-- C10: for every content (of a length a `std::string` can have) whose lines begin with a
run of comment lines, each starting with `'#'`, of which at least two qualify (the text left
once the `'#'` and one optional space after it are removed is non-empty, is not exactly
`gitignore` and does not contain `Generated`), whatever lines follow the run, when the first
two qualifying texts joined by one space are at most 60 characters long,
`extract_description` returns that joined text; the comment lines that do not qualify are
passed over. -/
theorem extract_description_two (content : Str) (comments rest : List Str)
    (first second : Str) (more : List Str)
    (hlen : content.length < npos)
    (hlines : getlines content = comments ++ rest)
    (hcomments : ∀ line ∈ comments, line.head? = some '#')
    (hqual : (comments.map comment_text).filter (fun t => qualifies t)
      = first :: second :: more)
    (hshort : (first ++ str " " ++ second).length ≤ 60) :
    extract_description content = first ++ str " " ++ second := by
  have hc : ∀ line ∈ comments, line.head? = some '#' ∧ line.length < npos := by
    intro line hl
    refine ⟨hcomments line hl, ?_⟩
    have := getlines_length_le content line (by rw [hlines]; exact List.mem_append_left _ hl)
    omega
  have hd := description_lines_comments rest comments [] hc (by simp)
  rw [hqual] at hd
  simp only [List.length_nil, List.length_cons, Nat.zero_add, Nat.sub_zero] at hd
  rw [if_pos (by omega)] at hd
  simp only [List.nil_append, List.take_succ_cons, List.take_zero] at hd
  rw [extract_description, hlines, hd]
  have h60 : ¬ (first ++ (str " " ++ second)).length > 60 := by
    rw [← List.append_assoc]; omega
  simp only [h60, if_false, List.append_assoc]

/-- Witness of C10: two comment lines followed by a pattern line. -/
theorem extract_description_two_witness :
    (str "# My Project\n# more info\nnode_modules/\n").length < npos
      ∧ getlines (str "# My Project\n# more info\nnode_modules/\n")
          = [str "# My Project", str "# more info"] ++ [str "node_modules/"]
      ∧ (∀ line ∈ [str "# My Project", str "# more info"], line.head? = some '#')
      ∧ ([str "# My Project", str "# more info"].map comment_text).filter
            (fun t => qualifies t)
          = str "My Project" :: str "more info" :: []
      ∧ (str "My Project" ++ str " " ++ str "more info").length ≤ 60
      ∧ extract_description (str "# My Project\n# more info\nnode_modules/\n")
          = str "My Project more info" :=
  ⟨by decide, by decide, by decide, by decide, by decide,
    (extract_description_two (str "# My Project\n# more info\nnode_modules/\n")
      [str "# My Project", str "# more info"] [str "node_modules/"]
      (str "My Project") (str "more info") []
      (by decide) (by decide) (by decide) (by decide) (by decide)).trans (by decide)⟩

/-! ## Resolution through `scan_templates` -/

theorem ends_with_suffix (name : Str) : ends_with (name ++ suffix) suffix = true := by
  rw [ends_with, List.isSuffixOf_iff_suffix]
  exact List.suffix_append _ _

theorem substr_name (name : Str) :
    substr (name ++ suffix) 0 ((name ++ suffix).length - 10) = name := by
  have h10 : suffix.length = 10 := by decide
  rw [substr, List.drop_zero, List.length_append, h10, Nat.add_sub_cancel,
    List.take_left]

theorem eq_append_suffix (filename : Str) (h : ends_with filename suffix = true) :
    filename = substr filename 0 (filename.length - 10) ++ suffix := by
  rw [ends_with, List.isSuffixOf_iff_suffix] at h
  obtain ⟨t, ht⟩ := h
  have h10 : suffix.length = 10 := by decide
  rw [← ht, substr, List.drop_zero, List.length_append, h10, Nat.add_sub_cancel,
    List.take_left]

theorem find_key_append (m : List (Str × TemplateInfo)) (kv : Str × TemplateInfo) (k : Str) :
    (m ++ [kv]).find? (fun p => p.1 == k)
      = match m.find? (fun p => p.1 == k) with
        | some x => some x
        | none => if kv.1 == k then some kv else none := by
  induction m with
  | nil =>
    by_cases hk : (kv.1 == k) = true
    · simp [List.find?_cons, hk]
    · have hk' : (kv.1 == k) = false := by simpa using hk
      simp [List.find?_cons, hk']
  | cons x xs ih =>
    by_cases hx : (x.1 == k) = true
    · simp [List.find?_cons, hx]
    · have hx' : (x.1 == k) = false := by simpa using hx
      simp only [List.cons_append, List.find?_cons, hx']
      exact ih

theorem find_key_none_iff (m : List (Str × TemplateInfo)) (k : Str) :
    m.find? (fun p => p.1 == k) = none ↔ m.all (fun kv => kv.1 != k) = true := by
  rw [List.find?_eq_none, List.all_eq_true]
  constructor
  · intro h x hx; have := h x hx; simpa using this
  · intro h x hx; have := h x hx; simpa using this

theorem scan_entries_find (base_path : Root) (k : Str) :
    ∀ (entries : List Str) (m : List (Str × TemplateInfo)),
      (scan_entries base_path entries m).find? (fun p => p.1 == k)
        = match m.find? (fun p => p.1 == k) with
          | some x => some x
          | none =>
            if entries.contains (k ++ suffix)
                && (base_path.node (k ++ suffix)).is_regular_file then
              some (k,
                { name := k
                  path := { text := base_path.path ++ str "/" ++ (k ++ suffix)
                            node := base_path.node (k ++ suffix) }
                  size := (base_path.node (k ++ suffix)).file_size
                  description := [] })
            else none := by
  intro entries
  induction entries with
  | nil =>
    intro m
    simp only [scan_entries]
    cases hm : m.find? (fun p => p.1 == k) with
    | some x => rfl
    | none => simp
  | cons f rest ih =>
    intro m
    rw [scan_entries]
    by_cases hreg : (base_path.node f).is_regular_file = true
    · by_cases hend : ends_with f suffix = true
      · have hf := eq_append_suffix f hend
        simp only [hreg, hend, Bool.not_true, Bool.false_eq_true, if_false]
        by_cases habs : m.all (fun kv => kv.1 != substr f 0 (f.length - 10)) = true
        · rw [if_pos habs, ih, find_key_append]
          have hnone := (find_key_none_iff m _).2 habs
          by_cases hk : substr f 0 (f.length - 10) = k
          · have hfk : f = k ++ suffix := by rw [← hk]; exact hf
            rw [hk] at hnone
            simp only [hnone, hk, beq_self_eq_true, if_true]
            subst hfk
            simp [hreg, substr_name]
          · have hfk : ¬ f = k ++ suffix := by
              intro e; apply hk; rw [e, substr_name]
            have hfk2 : ¬ k ++ suffix = f := fun e => hfk e.symm
            have hb : (substr f 0 (f.length - 10) == k) = false := by simpa using hk
            simp only [hb, Bool.false_eq_true, if_false]
            cases hm : m.find? (fun p => p.1 == k) with
            | some x => rfl
            | none => simp [List.contains_cons, hfk2]
        · rw [if_neg habs, ih]
          cases hm : m.find? (fun p => p.1 == k) with
          | some x => rfl
          | none =>
            have hall := (find_key_none_iff m k).1 hm
            have hfk : ¬ k ++ suffix = f := by
              intro e; apply habs; rw [← e, substr_name]; exact hall
            simp [List.contains_cons, hfk]
      · have hfk : ¬ k ++ suffix = f := by
          intro e; apply hend; rw [← e]; exact ends_with_suffix k
        have hend' : ends_with f suffix = false := by simpa using hend
        simp only [hreg, hend', Bool.not_true, Bool.not_false, Bool.false_eq_true, if_false,
          if_true, ih]
        cases hm : m.find? (fun p => p.1 == k) with
        | some x => rfl
        | none => simp [List.contains_cons, hfk]
    · have hreg' : (base_path.node f).is_regular_file = false := by simpa using hreg
      simp only [hreg', Bool.not_false, if_true, ih]
      cases hm : m.find? (fun p => p.1 == k) with
      | some x => rfl
      | none =>
        by_cases hfk : k ++ suffix = f
        · subst hfk; simp [hreg']
        · simp [List.contains_cons, hfk]

theorem scan_roots_find (k : Str) :
    ∀ (template_paths : List Root) (m : List (Str × TemplateInfo)),
      (scan_roots template_paths m).find? (fun p => p.1 == k)
        = match m.find? (fun p => p.1 == k) with
          | some x => some x
          | none =>
            (template_paths.find? (fun r =>
                r.is_dir && r.entries.contains (k ++ suffix)
                  && (r.node (k ++ suffix)).is_regular_file)).map
              (fun r =>
                (k,
                  { name := k
                    path := { text := r.path ++ str "/" ++ (k ++ suffix)
                              node := r.node (k ++ suffix) }
                    size := (r.node (k ++ suffix)).file_size
                    description := [] })) := by
  intro template_paths
  induction template_paths with
  | nil =>
    intro m
    simp only [scan_roots]
    cases hm : m.find? (fun p => p.1 == k) with
    | some x => rfl
    | none => simp
  | cons r rest ih =>
    intro m
    rw [scan_roots]
    by_cases hdir : r.is_dir = true
    · simp only [hdir, Bool.not_true, Bool.false_eq_true, if_false]
      rw [ih, scan_entries_find]
      cases hm : m.find? (fun p => p.1 == k) with
      | some x => rfl
      | none =>
        by_cases hc : (r.entries.contains (k ++ suffix)
            && (r.node (k ++ suffix)).is_regular_file) = true
        · have hp : (r.is_dir && r.entries.contains (k ++ suffix)
              && (r.node (k ++ suffix)).is_regular_file) = true := by
            rw [Bool.and_assoc, hdir, hc]; rfl
          simp only [hc, if_true, List.find?_cons, hp, Option.map_some']
        · have hc' : (r.entries.contains (k ++ suffix)
              && (r.node (k ++ suffix)).is_regular_file) = false := by simpa using hc
          have hp : (r.is_dir && r.entries.contains (k ++ suffix)
              && (r.node (k ++ suffix)).is_regular_file) = false := by
            rw [Bool.and_assoc, hc']; simp
          simp only [hc', Bool.false_eq_true, if_false, List.find?_cons, hp]
    · have hdir' : r.is_dir = false := by simpa using hdir
      simp only [hdir', Bool.not_false, if_true]
      rw [ih]
      cases hm : m.find? (fun p => p.1 == k) with
      | some x => rfl
      | none =>
        have hp : (r.is_dir && r.entries.contains (k ++ suffix)
            && (r.node (k ++ suffix)).is_regular_file) = false := by
          rw [hdir']; simp
        simp only [List.find?_cons, hp]

theorem scan_entries_keys (base_path : Root) :
    ∀ (entries : List Str) (m : List (Str × TemplateInfo)),
      ((∀ kv ∈ m, kv.2.name = kv.1) ∧ (m.map Prod.fst).Nodup) →
      (∀ kv ∈ scan_entries base_path entries m, kv.2.name = kv.1)
        ∧ ((scan_entries base_path entries m).map Prod.fst).Nodup := by
  intro entries
  induction entries with
  | nil => intro m h; exact h
  | cons f rest ih =>
    intro m h
    simp only [scan_entries]
    split_ifs with h1 h2 h3
    · exact ih m h
    · exact ih m h
    · apply ih
      constructor
      · intro kv hkv
        rcases List.mem_append.1 hkv with e | e
        · exact h.1 kv e
        · simp only [List.mem_singleton] at e
          rw [e]
      · rw [List.map_append, List.nodup_append]
        refine ⟨h.2, by simp, ?_⟩
        intro a ha hb
        simp only [List.map_cons, List.map_nil, List.mem_singleton] at hb
        obtain ⟨kv, hkv, hfst⟩ := List.mem_map.1 ha
        have := List.all_eq_true.1 h3 kv hkv
        rw [hfst, hb] at this
        simp at this
    · exact ih m h

theorem scan_roots_keys :
    ∀ (template_paths : List Root) (m : List (Str × TemplateInfo)),
      ((∀ kv ∈ m, kv.2.name = kv.1) ∧ (m.map Prod.fst).Nodup) →
      (∀ kv ∈ scan_roots template_paths m, kv.2.name = kv.1)
        ∧ ((scan_roots template_paths m).map Prod.fst).Nodup := by
  intro template_paths
  induction template_paths with
  | nil => intro m h; exact h
  | cons r rest ih =>
    intro m h
    rw [scan_roots]
    split_ifs
    · exact ih m h
    · exact ih _ (scan_entries_keys r r.entries m h)

theorem perm_find_name (k : Str) (l₁ l₂ : List TemplateInfo) (hperm : l₁.Perm l₂)
    (hnd : (l₁.map (fun t => t.name)).Nodup) :
    l₁.find? (fun t => t.name == k) = l₂.find? (fun t => t.name == k) := by
  induction hperm with
  | nil => rfl
  | cons x _ ih =>
    simp only [List.map_cons, List.nodup_cons] at hnd
    simp only [List.find?_cons]
    split
    · rfl
    · exact ih hnd.2
  | swap x y l =>
    simp only [List.map_cons, List.nodup_cons, List.mem_cons, not_or] at hnd
    simp only [List.find?_cons]
    by_cases hx : (x.name == k) = true
    · by_cases hy : (y.name == k) = true
      · have ex : x.name = k := by simpa using hx
        have ey : y.name = k := by simpa using hy
        exact absurd (ey.trans ex.symm) hnd.1.1
      · have hy' : (y.name == k) = false := by simpa using hy
        simp [hx, hy']
    · have hx' : (x.name == k) = false := by simpa using hx
      simp [hx']
  | trans h₁ _ ih₁ ih₂ =>
    exact (ih₁ hnd).trans (ih₂ ((h₁.map _).nodup_iff.1 hnd))

theorem find_name_map (k : Str) :
    ∀ m : List (Str × TemplateInfo), (∀ kv ∈ m, kv.2.name = kv.1) →
      (m.map (fun pair => pair.2)).find? (fun t => t.name == k)
        = (m.find? (fun p => p.1 == k)).map (fun pair => pair.2) := by
  intro m
  induction m with
  | nil => intro _; rfl
  | cons x xs ih =>
    intro h
    have hx := h x (List.mem_cons_self _ _)
    have hxs : ∀ kv ∈ xs, kv.2.name = kv.1 := fun kv hkv => h kv (List.mem_cons_of_mem _ hkv)
    simp only [List.map_cons, List.find?_cons, hx]
    split
    · rfl
    · exact ih hxs

/-- Resolution in the mixer: `scan_templates` holds an entry for a name exactly when some
root that is a directory lists a regular file `name + ".gitignore"`, and the entry is that of
the first such root in priority order, whether or not the file can be opened. -/
theorem scan_templates_find (template_paths : List Root) (name : Str) :
    (scan_templates template_paths).find? (fun t => t.name == name)
      = (template_paths.find? (fun r =>
            r.is_dir && r.entries.contains (name ++ suffix)
              && (r.node (name ++ suffix)).is_regular_file)).map
          (fun r =>
            { name := name
              path := { text := r.path ++ str "/" ++ (name ++ suffix)
                        node := r.node (name ++ suffix) }
              size := (r.node (name ++ suffix)).file_size
              description := [] }) := by
  obtain ⟨hname, hnd⟩ := scan_roots_keys template_paths [] (by simp)
  have hnd2 : ((sort (fun a b => str_lt a.name b.name)
      ((scan_roots template_paths []).map (fun pair => pair.2))).map (fun t => t.name)).Nodup := by
    have hp := (sort_perm (fun a b : TemplateInfo => str_lt a.name b.name)
      ((scan_roots template_paths []).map (fun pair => pair.2))).map (fun t => t.name)
    rw [hp.nodup_iff, List.map_map]
    have : (scan_roots template_paths []).map ((fun t : TemplateInfo => t.name) ∘ fun pair => pair.2)
        = (scan_roots template_paths []).map Prod.fst := by
      apply List.map_congr_left
      intro kv hkv
      exact hname kv hkv
    rw [this]; exact hnd
  rw [scan_templates, perm_find_name name _ _ (sort_perm _ _) hnd2, find_name_map name _ hname,
    scan_roots_find]
  simp only [List.find?_nil, Option.map_map]
  rfl

/-! ## Descriptions: placeholder, truncation and the end of the scan -/

theorem description_lines_stop (stop : Str) (after : List Str) (desc_lines : List Str)
    (hne : stop ≠ []) (hnc : stop.head? ≠ some '#') :
    description_lines (stop :: after) desc_lines = desc_lines := by
  have h1 : stop.isEmpty = false := by
    cases stop with
    | nil => exact absurd rfl hne
    | cons _ _ => rfl
  have h2 : (stop.head? != some '#') = true := by simpa using hnc
  rw [description_lines]
  simp only [h1, Bool.false_eq_true, if_false, h2, if_true]

/-- C11: for every content whose first line is non-empty and does not start with `'#'`, and
for the empty content, `extract_description` returns exactly the placeholder
`No description`. -/
theorem extract_description_no_comment (content : Str)
    (h : content = []
      ∨ ∃ (first : Str) (rest : List Str),
          getlines content = first :: rest ∧ first ≠ [] ∧ first.head? ≠ some '#') :
    extract_description content = str "No description" := by
  rcases h with h | ⟨first, rest, hlines, hne, hnc⟩
  · subst h
    rfl
  · rw [extract_description, hlines, description_lines_stop first rest [] hne hnc]

/-- Witness of C11: the content `node_modules/` has no leading comment. -/
theorem extract_description_no_comment_witness :
    (str "node_modules/\n" = []
        ∨ ∃ (first : Str) (rest : List Str),
            getlines (str "node_modules/\n") = first :: rest ∧ first ≠ []
              ∧ first.head? ≠ some '#')
      ∧ extract_description (str "node_modules/\n") = str "No description"
      ∧ extract_description (str "") = str "No description" :=
  ⟨Or.inr ⟨str "node_modules/", [], by decide, by decide, by decide⟩,
    extract_description_no_comment (str "node_modules/\n")
      (Or.inr ⟨str "node_modules/", [], by decide, by decide, by decide⟩),
    extract_description_no_comment (str "") (Or.inl (by decide))⟩

theorem description_lines_length :
    ∀ (lines desc_lines : List Str), desc_lines.length < 2 →
      (description_lines lines desc_lines).length ≤ 2 := by
  intro lines
  induction lines with
  | nil => intro desc_lines h; simp only [description_lines]; omega
  | cons line rest ih =>
    intro desc_lines h
    simp only [description_lines]
    split_ifs
    all_goals first
      | exact ih desc_lines h
      | omega
      | (simp only [List.length_append, List.length_singleton] at *; omega)
      | (apply ih; simp only [List.length_append, List.length_singleton] at *; omega)

/-- C12: for every content, the summary `extract_description` returns is at most 60
characters long, ellipsis included; the scan keeps at most two description lines, and when
it keeps one at least, with the kept lines joined by one space: if the joined text is longer
than 60 characters the result is its first 57 characters, a prefix of it, followed by `...`,
and if it is at most 60 characters long the result is the joined text unchanged. -/
theorem extract_description_truncated (content : Str) :
    (extract_description content).length ≤ 60
      ∧ (description_lines (getlines content) []).length ≤ 2
      ∧ (description_lines (getlines content) [] ≠ [] →
          ((List.intercalate (str " ") (description_lines (getlines content) [])).length > 60 →
              extract_description content
                  = (List.intercalate (str " ")
                      (description_lines (getlines content) [])).take 57 ++ str "..."
                ∧ (List.intercalate (str " ")
                      (description_lines (getlines content) [])).take 57
                    <+: List.intercalate (str " ") (description_lines (getlines content) []))
            ∧ ((List.intercalate (str " ")
                  (description_lines (getlines content) [])).length ≤ 60 →
                extract_description content
                  = List.intercalate (str " ") (description_lines (getlines content) []))) := by
  have hlen := description_lines_length (getlines content) [] (by simp)
  have h3 : (str "...").length = 3 := by decide
  have hp : (str "No description").length = 14 := by decide
  rw [extract_description]
  cases hd : description_lines (getlines content) [] with
  | nil =>
    refine ⟨?_, by simp, fun h => absurd rfl h⟩
    simp only [hp]; omega
  | cons first more =>
    rw [hd] at hlen
    have key : ∀ joined : Str,
        (if joined.length > 60 then substr joined 0 57 ++ str "..." else joined).length ≤ 60
          ∧ (joined.length > 60 →
              (if joined.length > 60 then substr joined 0 57 ++ str "..." else joined)
                  = joined.take 57 ++ str "..."
                ∧ joined.take 57 <+: joined)
          ∧ (joined.length ≤ 60 →
              (if joined.length > 60 then substr joined 0 57 ++ str "..." else joined)
                = joined) := by
      intro joined
      refine ⟨?_, ?_, ?_⟩
      · split_ifs with h
        · simp only [substr, List.drop_zero, List.length_append, List.length_take, h3]
          omega
        · omega
      · intro h
        rw [if_pos h, substr, List.drop_zero]
        exact ⟨rfl, List.take_prefix 57 joined⟩
      · intro h
        rw [if_neg (by omega)]
    cases more with
    | nil =>
      have hj : List.intercalate (str " ") [first] = first := by simp [List.intercalate]
      rw [hj]
      exact ⟨(key first).1, hlen, fun _ => (key first).2⟩
    | cons second others =>
      cases others with
      | cons x xs => simp only [List.length_cons] at hlen; omega
      | nil =>
        have hj : List.intercalate (str " ") [first, second] = first ++ (str " " ++ second) := by
          simp [List.intercalate]
        rw [hj]
        exact ⟨(key _).1, hlen, fun _ => (key _).2⟩

/-- Witness of C12: two comment lines of 40 characters each give a joined text of 81
characters, cut to 57 characters and the ellipsis. -/
theorem extract_description_truncated_witness :
    description_lines (getlines (str "# 0123456789012345678901234567890123456789\n# 0123456789012345678901234567890123456789\n")) [] ≠ []
      ∧ (List.intercalate (str " ") (description_lines (getlines (str "# 0123456789012345678901234567890123456789\n# 0123456789012345678901234567890123456789\n")) [])).length > 60
      ∧ extract_description (str "# 0123456789012345678901234567890123456789\n# 0123456789012345678901234567890123456789\n")
          = str "0123456789012345678901234567890123456789 0123456789012345..."
      ∧ (extract_description (str "# 0123456789012345678901234567890123456789\n# 0123456789012345678901234567890123456789\n")).length
          = 60 :=
  ⟨by decide, by decide,
    (((extract_description_truncated (str "# 0123456789012345678901234567890123456789\n# 0123456789012345678901234567890123456789\n")).2.2
      (by decide)).1 (by decide)).1.trans (by decide),
    by decide⟩

theorem getlines_append_terminated (pre tail : Str)
    (hpre : pre = [] ∨ pre.getLast? = some '\n') :
    getlines (pre ++ tail) = getlines pre ++ getlines tail := by
  rcases hpre with h | h
  · subst h; simp [getlines]
  · obtain ⟨p, hp⟩ := List.getLast?_eq_some_iff.1 h
    subst hp
    rw [List.append_assoc]
    exact getlines_append_newline p tail

theorem description_lines_cut (stop : Str) (after : List Str)
    (hne : stop ≠ []) (hnc : stop.head? ≠ some '#') :
    ∀ (before desc_lines : List Str),
      description_lines (before ++ stop :: after) desc_lines
        = description_lines before desc_lines := by
  intro before
  induction before with
  | nil =>
    intro desc_lines
    rw [List.nil_append, description_lines_stop stop after desc_lines hne hnc]
    rfl
  | cons line rest ih =>
    intro desc_lines
    rw [List.cons_append]
    simp only [description_lines]
    split_ifs
    all_goals first
      | rfl
      | exact ih _

theorem description_lines_skip_empty (after : List Str) :
    ∀ (before desc_lines : List Str),
      description_lines (before ++ [] :: after) desc_lines
        = description_lines (before ++ after) desc_lines := by
  intro before
  induction before with
  | nil =>
    intro desc_lines
    rw [List.nil_append, List.nil_append, description_lines]
    simp
  | cons line rest ih =>
    intro desc_lines
    rw [List.cons_append, List.cons_append]
    simp only [description_lines]
    split_ifs
    all_goals first
      | rfl
      | exact ih _

/-- C13 (as the code has it): the scan of `extract_description` passes over empty lines and
ends at the first non-empty line that does not start with `'#'`. For every content split
at the start of a line, when the part from there on begins with a non-empty line that does
not start with `'#'`, the result is that of the part before it alone, so no comment line
after such a line contributes; and an empty line does not end the scan: the result is the
same as with the empty line removed, so a comment line after an empty line still counts. -/
theorem extract_description_scan_end (pre tail : Str)
    (hpre : pre = [] ∨ pre.getLast? = some '\n') :
    (∀ (stop : Str) (after : List Str),
        getlines tail = stop :: after → stop ≠ [] → stop.head? ≠ some '#' →
        extract_description (pre ++ tail) = extract_description pre)
      ∧ extract_description (pre ++ '\n' :: tail) = extract_description (pre ++ tail) := by
  constructor
  · intro stop after htail hne hnc
    rw [extract_description, extract_description, getlines_append_terminated pre tail hpre,
      htail, description_lines_cut stop after hne hnc]
  · have hnl : getlines ('\n' :: tail) = [] :: getlines tail := by
      rw [getlines_cons]; simp
    rw [extract_description, extract_description,
      getlines_append_terminated pre ('\n' :: tail) hpre,
      getlines_append_terminated pre tail hpre, hnl, description_lines_skip_empty]

/-- Witness of C13 (as the code has it): after the comment `# A` and an empty line comes the
pattern line `x`, and the comment `# B` after it does not count. -/
theorem extract_description_scan_end_witness :
    (str "# A\n\n" = [] ∨ (str "# A\n\n").getLast? = some '\n')
      ∧ getlines (str "x\n# B\n") = str "x" :: [str "# B"]
      ∧ str "x" ≠ []
      ∧ (str "x").head? ≠ some '#'
      ∧ extract_description (str "# A\n\n" ++ str "x\n# B\n") = str "A"
      ∧ extract_description (str "# A\n\n") = str "A" :=
  ⟨Or.inr (by decide), by decide, by decide, by decide,
    ((extract_description_scan_end (str "# A\n\n") (str "x\n# B\n") (Or.inr (by decide))).1
      (str "x") [str "# B"] (by decide) (by decide) (by decide)).trans (by decide),
    by decide⟩

/-- Counterexample to C13 as stated: in `# A`, empty line, `# B` the first line that is not
a comment line is the empty one; the comment `# B` after it contributes to the summary
`A B`, and with everything from the empty line on removed the summary is `A`. -/
theorem extract_description_passes_empty_line :
    getlines (str "# A\n\n# B\n") = [str "# A", [], str "# B"]
      ∧ extract_description (str "# A\n\n# B\n") = str "A B"
      ∧ extract_description (str "# A\n") = str "A"
      ∧ extract_description (str "# A\n\n# B\n") ≠ extract_description (str "# A\n") := by
  decide

/-! ## The generator: the template loop -/

theorem generate_loop_returns (template_paths : List Root) (verbose : Bool)
    (templates : List Str)
    (hread : ∀ name ∈ templates, read_template template_paths name ≠ none) :
    ∀ st : GenState,
      (generate_loop template_paths verbose templates st).2 = false
        ∧ (generate_loop template_paths verbose templates st).1.file
          = st.file ++ templates.flatMap (fun name =>
              if (read_template template_paths name).getD [] = [] then []
              else str "# " ++ name ++ str "\n" ++ (read_template template_paths name).getD []
                ++ (if ((read_template template_paths name).getD []).getLast? = some '\n' then []
                    else str "\n")
                ++ str "\n")
        ∧ (generate_loop template_paths verbose templates st).1.cerr
          = st.cerr
            ++ (templates.filter (fun name => read_template template_paths name = some [])).flatMap
              (fun name => color.yellow ++ str "Warning: Template '" ++ name
                ++ str "' not found" ++ color.reset ++ str "\n")
        ∧ ((generate_loop template_paths verbose templates st).1.any_template_found = true
            ↔ st.any_template_found = true
              ∨ ∃ name ∈ templates, read_template template_paths name ≠ some []) := by
  induction templates with
  | nil => intro st; simp [generate_loop]
  | cons t ts ih =>
    intro st
    have hts : ∀ name ∈ ts, read_template template_paths name ≠ none :=
      fun name h => hread name (List.mem_cons_of_mem _ h)
    cases ht : read_template template_paths t with
    | none => exact absurd ht (hread t (List.mem_cons_self _ _))
    | some content =>
      obtain ⟨h0, h1, h2, h3⟩ := ih hts (generate_step verbose st t content)
      simp only [generate_loop, ht]
      rw [h0, h1, h2, h3]
      by_cases hc : content = []
      · subst hc
        simp [generate_step, ht, endl_eq]
      · simp [generate_step, ht, hc, ends_with_char, endl_eq]

theorem generate_gitignore_returns (template_paths : List Root) (verbose : Bool)
    (templates : List Str) (output_file : Str) (append : Bool) (target : Target)
    (hread : ∀ name ∈ templates, read_template template_paths name ≠ none) :
    (generate_gitignore template_paths verbose templates output_file append target).terminated
      = false := by
  unfold generate_gitignore
  by_cases hopen : target.can_open = true
  · simp only [hopen, Bool.not_true, Bool.false_eq_true, if_false,
      (generate_loop_returns template_paths verbose templates hread _).1]
  · have hf : target.can_open = false := by simpa using hopen
    simp only [hf, Bool.not_false, if_true]

theorem generate_gitignore_file_any (template_paths : List Root) (verbose : Bool)
    (templates : List Str) (output_file : Str) (append : Bool) (target : Target)
    (hopen : target.can_open = true)
    (hread : ∀ name ∈ templates, read_template template_paths name ≠ none) :
    (generate_gitignore template_paths verbose templates output_file append target).file
      = some ((if append then target.old else [])
          ++ (str "# Generated by autoignore\n# Templates: "
            ++ List.intercalate (str ", ") templates ++ str "\n\n"
            ++ templates.flatMap (fun name =>
                if (read_template template_paths name).getD [] = [] then []
                else str "# " ++ name ++ str "\n"
                  ++ (read_template template_paths name).getD []
                  ++ (if ((read_template template_paths name).getD []).getLast? = some '\n'
                      then []
                      else str "\n")
                  ++ str "\n"))) := by
  have hn := header_names_eq templates 0
  simp only [Nat.zero_add] at hn
  have e1 : str "# Generated by autoignore\n# Templates: "
      = str "# Generated by autoignore" ++ str "\n" ++ str "# Templates: " := by decide
  have e2 : str "\n\n" = str "\n" ++ str "\n" := by decide
  simp only [generate_gitignore, hopen, Bool.not_true, Bool.false_eq_true, if_false,
    (generate_loop_returns template_paths verbose templates hread _).1]
  rw [(generate_loop_returns template_paths verbose templates hread _).2.1]
  simp [hn, endl_eq, e1, e2]

theorem generate_gitignore_cerr (template_paths : List Root) (verbose : Bool)
    (templates : List Str) (output_file : Str) (append : Bool) (target : Target)
    (hopen : target.can_open = true)
    (hread : ∀ name ∈ templates, read_template template_paths name ≠ none) :
    (generate_gitignore template_paths verbose templates output_file append target).cerr
      = (templates.filter (fun name => read_template template_paths name = some [])).flatMap
            (fun name => color.yellow ++ str "Warning: Template '" ++ name
              ++ str "' not found" ++ color.reset ++ str "\n")
          ++ (if ∀ name ∈ templates, read_template template_paths name = some [] then
                color.red ++ str "Error: No valid templates found" ++ color.reset ++ str "\n"
              else []) := by
  simp only [generate_gitignore, hopen, Bool.not_true, Bool.false_eq_true, if_false,
    (generate_loop_returns template_paths verbose templates hread _).1]
  rw [(generate_loop_returns template_paths verbose templates hread _).2.2.1]
  simp only [List.nil_append]
  congr 1
  have h3 := fun st => (generate_loop_returns template_paths verbose templates hread st).2.2.2
  by_cases hall : ∀ name ∈ templates, read_template template_paths name = some []
  · have hno : ¬ ∃ name ∈ templates, read_template template_paths name ≠ some [] := by
      push_neg; exact hall
    simp only [h3, hno, or_false, Bool.false_eq_true, if_false, endl_eq]
    rw [if_pos hall]
  · have hsome : ∃ name ∈ templates, read_template template_paths name ≠ some [] := by
      push_neg at hall; exact hall
    simp only [h3, hsome, or_true, if_true]
    rw [if_neg hall]

/-- The text `generate_gitignore` writes when no read throws: in overwrite mode, when the
output file can be opened, the header `# Generated by autoignore`, the line `# Templates: `
with the requested names joined by `", "`, an empty line, and for each requested name in
request order whose template resolves to non-empty content the banner `# name`, the content
verbatim, a line terminator only when the content does not end with one, and an empty line;
the error stream holds the warning of every name that resolves to nothing, and the error
`No valid templates found` exactly when no name resolves. -/
theorem generate_gitignore_text (template_paths : List Root) (verbose : Bool)
    (templates : List Str) (output_file : Str) (target : Target)
    (hopen : target.can_open = true)
    (hread : ∀ name ∈ templates, read_template template_paths name ≠ none) :
    (generate_gitignore template_paths verbose templates output_file false target).file
        = some (str "# Generated by autoignore\n# Templates: "
            ++ List.intercalate (str ", ") templates ++ str "\n\n"
            ++ templates.flatMap (fun name =>
                if (read_template template_paths name).getD [] = [] then []
                else str "# " ++ name ++ str "\n"
                  ++ (read_template template_paths name).getD []
                  ++ (if ((read_template template_paths name).getD []).getLast? = some '\n'
                      then []
                      else str "\n")
                  ++ str "\n"))
      ∧ (generate_gitignore template_paths verbose templates output_file false target).cerr
        = (templates.filter (fun name => read_template template_paths name = some [])).flatMap
              (fun name => color.yellow ++ str "Warning: Template '" ++ name
                ++ str "' not found" ++ color.reset ++ str "\n")
            ++ (if ∀ name ∈ templates, read_template template_paths name = some [] then
                  color.red ++ str "Error: No valid templates found" ++ color.reset
                    ++ str "\n"
                else [])
      ∧ (generate_gitignore template_paths verbose templates output_file false target).terminated
        = false := by
  refine ⟨?_, generate_gitignore_cerr template_paths verbose templates output_file false target
    hopen hread, generate_gitignore_returns template_paths verbose templates output_file false
    target hread⟩
  have := generate_gitignore_file_any template_paths verbose templates output_file false target
    hopen hread
  simpa using this

/-- C1 (the code on a directory named like a template): the root holds a directory
`x.gitignore`, which exists, opens and cannot be read, and the template `cpp`. The read of
`x` throws, so the request `x, cpp` ends the process with the header alone in the file:
`cpp`, which resolves, has no section, `x` is not reported as not found, and `run` returns no
exit status. The listing, which tests `is_regular_file()`, shows `cpp` only. -/
theorem generate_gitignore_directory_entry :
    (directory_root.lookup (str "x" ++ suffix)).map Node.is_regular_file = some false
      ∧ read_template [directory_root] (str "x") = none
      ∧ read_template [directory_root] (str "cpp") = some (str "*.o\n")
      ∧ get_available_templates [directory_root] = [str "cpp"]
      ∧ (generate_gitignore [directory_root] false [str "x", str "cpp"] (str ".gitignore") false
            fresh_target).terminated = true
      ∧ (generate_gitignore [directory_root] false [str "x", str "cpp"] (str ".gitignore") false
            fresh_target).file
          = some (str "# Generated by autoignore\n# Templates: x, cpp\n\n")
      ∧ (generate_gitignore [directory_root] false [str "x", str "cpp"] (str ".gitignore") false
            fresh_target).cerr = []
      ∧ (run [directory_root] [] [str "x", str "cpp"] fresh_target).1 = none := by
  decide

/-- C4: for every template name whose template resolves to non-empty content, when the text
`generate_gitignore` writes for that single name in overwrite mode has a length a
`std::string` can have, the extraction loop yields patterns on the content and on the written
text, and every pattern of the content is a pattern of the written text. -/
theorem generate_round_trip (template_paths : List Root) (verbose : Bool)
    (name output_file : Str) (target : Target) (content text : Str)
    (hread : read_template template_paths name = some content)
    (hcontent : content ≠ [])
    (hfile : (generate_gitignore template_paths verbose [name] output_file false target).file
      = some text)
    (hlen : text.length < npos) :
    ∃ original written : List Str,
      extract_patterns content = some original
        ∧ extract_patterns text = some written
        ∧ ∀ p ∈ original, p ∈ written := by
  have hopen : target.can_open = true := by
    by_contra h
    have hf : target.can_open = false := by simpa using h
    simp [generate_gitignore, hf] at hfile
  have hall : ∀ n ∈ [name], read_template template_paths n ≠ none := by
    intro n hn h
    rw [List.mem_singleton.1 hn, hread] at h
    exact Option.noConfusion h
  rw [generate_gitignore_file_any template_paths verbose [name] output_file false target hopen
    hall] at hfile
  simp only [Option.some.injEq, List.flatMap_cons, List.flatMap_nil, List.append_nil,
    hread, Option.getD_some, if_neg hcontent, Bool.false_eq_true, if_false,
    List.nil_append] at hfile
  have e : str "\n" = ['\n'] := by decide
  have hsplit : text
      = (str "# Generated by autoignore\n# Templates: " ++ List.intercalate (str ", ") [name]
          ++ str "\n\n" ++ str "# " ++ name)
        ++ '\n' :: (content
          ++ (if content.getLast? = some '\n' then [] else str "\n")
          ++ str "\n") := by
    rw [← hfile, e]; simp
  have hlines : getlines text
      = getlines ((str "# Generated by autoignore\n# Templates: "
            ++ List.intercalate (str ", ") [name] ++ str "\n\n" ++ str "# " ++ name) ++ ['\n'])
          ++ (getlines content ++ [[]]) := by
    rw [hsplit, getlines_append_newline, getlines_terminated _ hcontent]
  have hclen : content.length < npos := by
    have := congrArg List.length hsplit
    simp only [List.length_append, List.length_cons] at this
    omega
  refine ⟨_, _, extract_patterns_eq _ hclen, extract_patterns_eq _ hlen, ?_⟩
  intro p hp
  rw [hlines, List.filterMap_append, List.filterMap_append]
  exact List.mem_append_right _ (List.mem_append_left _ hp)

/-- Witness of C4: the template `cpp` of `sample_root`, whose patterns `*.o` and `build/`
are patterns of the generated text. -/
theorem generate_round_trip_witness :
    read_template [sample_root] (str "cpp") = some (str "*.o\nbuild/")
      ∧ str "*.o\nbuild/" ≠ []
      ∧ (generate_gitignore [sample_root] false [str "cpp"] (str ".gitignore") false
            fresh_target).file
          = some (str "# Generated by autoignore\n# Templates: cpp\n\n# cpp\n*.o\nbuild/\n\n")
      ∧ (str "# Generated by autoignore\n# Templates: cpp\n\n# cpp\n*.o\nbuild/\n\n").length
          < npos
      ∧ extract_patterns (str "*.o\nbuild/") = some [str "*.o", str "build/"]
      ∧ ∃ original written : List Str,
          extract_patterns (str "*.o\nbuild/") = some original
            ∧ extract_patterns
                (str "# Generated by autoignore\n# Templates: cpp\n\n# cpp\n*.o\nbuild/\n\n")
              = some written
            ∧ ∀ p ∈ original, p ∈ written :=
  ⟨by decide, by decide, by decide, by decide, by decide,
    generate_round_trip [sample_root] false (str "cpp") (str ".gitignore") fresh_target
      (str "*.o\nbuild/")
      (str "# Generated by autoignore\n# Templates: cpp\n\n# cpp\n*.o\nbuild/\n\n")
      (by decide) (by decide) (by decide) (by decide)⟩

/-! ## Empty templates -/

end Autoignore
